import Mathlib

/-!
# Derecho: the persistent registry and the replicated-object handle

A shallow embedding of `src/src/persistent/Persistent.cpp` and of the
persistence part of `src/include/derecho/core/detail/replicated_impl.hpp`.

* `version_t` / `int64_t` values are `Int`.  The only arithmetic on versions is
  the `++version` of the loop in `PersistentRegistry::sign`; where it would pass
  the largest `int64_t` the call does not return, and `sign` has no result.
* Bytes (`unsigned char`) are `Nat`; byte buffers are `List Nat`.
* A registered field is a value of an arbitrary type `σ`; the callbacks of its
  `PersistentObjectFunctions` are functions on `σ`.
* `_registry` is an association list whose list order is the iteration order.
-/

namespace persistent

/-- The constant `INVALID_VERSION`. -/
def INVALID_VERSION : Int := -1

/-- The largest value of `int64_t`, the type of versions. -/
def INT64_MAX : Int := 9223372036854775807

/-- Modelled from the spec: `PersistentObjectFunctions` is declared in
`Persistent.hpp`, which is not among the sources.  It is the table of callbacks
one persistent field registers.  A callback that changes the field returns the
new field; `update_signature` and `update_verifier` return the bytes the field
streams into the signer or verifier for the given version, and the byte count
the C++ callback returns is the length of that list. -/
structure PersistentObjectFunctions (σ : Type) where
  /-- C++ `version(ver, mhlc)`: materialise the current value under `ver`. -/
  version : Int → Nat → σ → σ
  /-- C++ `persist(ver)`: flush everything up to `ver`. -/
  persist : Int → σ → σ
  /-- C++ `update_signature(ver, signer)`: the bytes of the field at `ver`. -/
  update_signature : Int → σ → List Nat
  /-- C++ `add_signature(ver, signature)`: attach a signature to the entry at `ver`. -/
  add_signature : Int → List Nat → σ → σ
  /-- C++ `update_verifier(ver, verifier)`: the bytes streamed into a verifier. -/
  update_verifier : Int → σ → List Nat
  /-- C++ `trim(earliest_version)`. -/
  trim : Int → σ → σ
  /-- C++ `truncate(last_version)`. -/
  truncate : Int → σ → σ
  /-- C++ `get_latest_version()`. -/
  get_latest_version : σ → Int
  /-- C++ `get_latest_persisted()`. -/
  get_latest_persisted : σ → Int

/-- The members of `PersistentRegistry` that the modelled methods read or write. -/
structure PersistentRegistry (σ : Type) where
  /-- The container `_registry`: key and registered field, in iteration order. -/
  _registry : List (Nat × σ)
  /-- The member `last_signed_version`. -/
  last_signed_version : Int
  /-- The member `last_signature`. -/
  last_signature : List Nat

/-- The loop shared by `getMinimumLatestVersion` and
`getMinimumLatestPersistedVersion`: `atBegin` is the test `itr == _registry.begin()`
and `min` the local variable of that name. -/
def minimumScan {σ : Type} (get : σ → Int) : List (Nat × σ) → Bool → Int → Int
  | [], _, min => min
  | entry :: rest, atBegin, min =>
    let ver := get entry.2
    if atBegin then minimumScan get rest false ver
    else if min > ver then minimumScan get rest false ver
    else minimumScan get rest false min

/-- C++ `PersistentRegistry::getMinimumLatestVersion`. -/
def getMinimumLatestVersion {σ : Type} (F : PersistentObjectFunctions σ)
    (reg : PersistentRegistry σ) : Int :=
  minimumScan F.get_latest_version reg._registry true (-1)

/-- C++ `PersistentRegistry::getMinimumLatestPersistedVersion`. -/
def getMinimumLatestPersistedVersion {σ : Type} (F : PersistentObjectFunctions σ)
    (reg : PersistentRegistry σ) : Int :=
  minimumScan F.get_latest_persisted reg._registry true (-1)

/-- C++ `PersistentRegistry::makeVersion`: every entry's `version(ver, mhlc)`. -/
def makeVersion {σ : Type} (F : PersistentObjectFunctions σ) (ver : Int) (mhlc : Nat)
    (reg : PersistentRegistry σ) : PersistentRegistry σ :=
  { reg with _registry := reg._registry.map (fun entry => (entry.1, F.version ver mhlc entry.2)) }

/-- C++ `PersistentRegistry::persist`: every entry's `persist(latest_version)`. -/
def persist {σ : Type} (F : PersistentObjectFunctions σ) (latest_version : Int)
    (reg : PersistentRegistry σ) : PersistentRegistry σ :=
  { reg with _registry := reg._registry.map (fun entry => (entry.1, F.persist latest_version entry.2)) }

/-- C++ `PersistentRegistry::trim`: every entry's `trim(earliest_version)`. -/
def trim {σ : Type} (F : PersistentObjectFunctions σ) (earliest_version : Int)
    (reg : PersistentRegistry σ) : PersistentRegistry σ :=
  { reg with _registry := reg._registry.map (fun entry => (entry.1, F.trim earliest_version entry.2)) }

/-- C++ `PersistentRegistry::truncate`: every entry's `truncate(last_version)`. -/
def truncate {σ : Type} (F : PersistentObjectFunctions σ) (last_version : Int)
    (reg : PersistentRegistry σ) : PersistentRegistry σ :=
  { reg with _registry := reg._registry.map (fun entry => (entry.1, F.truncate last_version entry.2)) }

/-- C++ `memcpy(dst, src, n)` on byte vectors: the first `n` bytes of `src` replace the
first `n` bytes of `dst`.  The C++ call is defined only when both hold `n` bytes. -/
def memcpy (dst src : List Nat) (n : Nat) : List Nat :=
  src.take n ++ dst.drop n

/-- C++ `std::vector<unsigned char>::resize(n)`: cut to `n` bytes or pad with zero bytes. -/
def resize (v : List Nat) (n : Nat) : List Nat :=
  v.take n ++ List.replicate (n - v.length) 0

/-- C++ `PersistentRegistry::initializeLastSignature`. -/
def initializeLastSignature {σ : Type} (version : Int) (signature : List Nat)
    (signature_size : Nat) (reg : PersistentRegistry σ) : PersistentRegistry σ :=
  let last_signature :=
    if signature_size ≠ reg.last_signature.length then resize reg.last_signature signature_size
    else reg.last_signature
  if signature_size > 0 ∧ version ≠ INVALID_VERSION
      ∧ (reg.last_signed_version = INVALID_VERSION ∨ reg.last_signed_version < version) then
    { reg with
      last_signature := memcpy last_signature signature signature_size
      last_signed_version := version }
  else
    { reg with last_signature := last_signature }

end persistent

namespace openssl

/-- Modelled from the spec: `openssl::Signer` (declared in `derecho/openssl`, not
among the sources), "an abstract capability with operations init(), add_bytes(ptr,len),
finalize(out)" that signs the accumulated bytes under a configured key.
`sign_bytes` is the signature of a byte stream under that key; `data` holds the
bytes added since the last `init`. -/
structure Signer where
  /-- The signature of a byte stream under the configured key and digest. -/
  sign_bytes : List Nat → List Nat
  /-- The bytes accumulated since the last `init()`. -/
  data : List Nat

/-- C++ `Signer::init()`. -/
def Signer.init (s : Signer) : Signer := { s with data := [] }

/-- C++ `Signer::add_bytes(ptr, len)`. -/
def Signer.add_bytes (s : Signer) (bytes : List Nat) : Signer :=
  { s with data := s.data ++ bytes }

/-- C++ `Signer::finalize(signature_buffer)`: the signature of the accumulated bytes is
written at the start of the buffer; the result is the buffer afterwards. -/
def Signer.finalize (s : Signer) (signature_buffer : List Nat) : List Nat :=
  s.sign_bytes s.data ++ signature_buffer.drop (s.sign_bytes s.data).length

/-- Modelled from the spec: `openssl::Verifier` (not among the sources), the
counterpart of `Signer`: `verify_bytes stream signature` tells whether `signature`
is a valid signature of `stream`. -/
structure Verifier where
  /-- Whether the second argument is a valid signature of the first. -/
  verify_bytes : List Nat → List Nat → Bool
  /-- The value of `get_max_signature_size()`. -/
  max_signature_size : Nat
  /-- The bytes accumulated since the last `init()`. -/
  data : List Nat

/-- C++ `Verifier::init()`. -/
def Verifier.init (v : Verifier) : Verifier := { v with data := [] }

/-- C++ `Verifier::add_bytes(ptr, len)`. -/
def Verifier.add_bytes (v : Verifier) (bytes : List Nat) : Verifier :=
  { v with data := v.data ++ bytes }

/-- C++ `Verifier::get_max_signature_size()`. -/
def Verifier.get_max_signature_size (v : Verifier) : Nat := v.max_signature_size

/-- C++ `Verifier::finalize(signature, signature_size)`. -/
def Verifier.finalize (v : Verifier) (signature : List Nat) (signature_size : Nat) : Bool :=
  v.verify_bytes v.data (signature.take signature_size)

/-- The verifier paired with a signer whose signatures are `sign_bytes`: it accepts
a signature exactly when it is the signer's output over the same byte stream. -/
def idealVerifier (sign_bytes : List Nat → List Nat) (max_signature_size : Nat) : Verifier :=
  { verify_bytes := fun stream signature => decide (signature = sign_bytes stream)
    max_signature_size := max_signature_size
    data := [] }

end openssl

namespace persistent

open openssl

/-- What `PersistentRegistry::sign` did at one version of its loop: the version, the
bytes the signer held when `finalize` was called, and the signature buffer after it. -/
structure SignVisit where
  /-- The loop variable `version`. -/
  version : Int
  /-- The bytes added to the signer between `init()` and `finalize()`. -/
  signed_bytes : List Nat
  /-- The contents of `signature_buffer` after `finalize()`. -/
  signature : List Nat
deriving DecidableEq, Repr

/-- The state the loop of `PersistentRegistry::sign` works on.  The declaration
`version_t last_signed_version = ...` at the top of `sign` introduces a local
variable that hides the member of the same name for the rest of the function;
it is `local_last_signed_version` here, and `registry.last_signed_version` is the
member.  `visited` is the record of the versions visited so far, oldest first. -/
structure SignState (σ : Type) where
  /-- The registry (`*this`). -/
  registry : PersistentRegistry σ
  /-- The `signer` argument. -/
  signer : Signer
  /-- The bytes at `signature_buffer`. -/
  signature_buffer : List Nat
  /-- The local variable `last_signed_version` of `sign`. -/
  local_last_signed_version : Int
  /-- The record of the visited versions. -/
  visited : List SignVisit

/-- The first inner loop of `sign`: `bytes_signed += entry.second.update_signature(version, signer)`
for each entry in iteration order. -/
def updateSignatures {σ : Type} (F : PersistentObjectFunctions σ) (version : Int) :
    List (Nat × σ) → Signer → Nat → Signer × Nat
  | [], signer, bytes_signed => (signer, bytes_signed)
  | entry :: rest, signer, bytes_signed =>
    let bytes := F.update_signature version entry.2
    updateSignatures F version rest (signer.add_bytes bytes) (bytes_signed + bytes.length)

/-- The body of the loop of `sign` for one `version` (lines 59 to 75). -/
def signVersion {σ : Type} (F : PersistentObjectFunctions σ) (version : Int)
    (st : SignState σ) : SignState σ :=
  let signer0 := st.signer.init
  let updated := updateSignatures F version st.registry._registry signer0 0
  let signer1 :=
    if updated.2 > 0 then updated.1.add_bytes st.registry.last_signature else updated.1
  let signature_buffer := signer1.finalize st.signature_buffer
  let entries := st.registry._registry.map
    (fun entry => (entry.1, F.add_signature version signature_buffer entry.2))
  let last_signature :=
    memcpy st.registry.last_signature signature_buffer st.registry.last_signature.length
  { registry :=
      { _registry := entries
        last_signed_version := st.registry.last_signed_version
        last_signature := last_signature }
    signer := signer1
    signature_buffer := signature_buffer
    local_last_signed_version := version
    visited := st.visited ++ [⟨version, signer1.data, signature_buffer⟩] }

/-- The loop `for(version = ...; version <= latest_version; ++version)` of `sign`.
The first argument bounds the number of rounds; `sign` passes the exact count.  The
result is `none` when the call does not return: `version` is an `int64_t`, so once it
holds the largest value and the test still succeeds, `++version` overflows and the
test `version <= latest_version` can never fail. -/
def signLoop {σ : Type} (F : PersistentObjectFunctions σ) (latest_version : Int) :
    Nat → Int → SignState σ → Option (SignState σ)
  | 0, version, st => if version ≤ latest_version then none else some st
  | fuel + 1, version, st =>
    if version ≤ latest_version then
      if version < INT64_MAX then
        signLoop F latest_version fuel (version + 1) (signVersion F version st)
      else none
    else some st

/-- C++ `PersistentRegistry::sign`; `none` when the call does not return. -/
def sign {σ : Type} (F : PersistentObjectFunctions σ) (latest_version : Int)
    (signer : Signer) (signature_buffer : List Nat) (reg : PersistentRegistry σ) :
    Option (SignState σ) :=
  let last_signed_version := getMinimumLatestPersistedVersion F reg
  signLoop F latest_version (latest_version + 1 - last_signed_version).toNat last_signed_version
    { registry := reg
      signer := signer
      signature_buffer := signature_buffer
      local_last_signed_version := last_signed_version
      visited := [] }

/-- C++ `PersistentRegistry::verify`. -/
def verify {σ : Type} (F : PersistentObjectFunctions σ) (version : Int)
    (verifier : Verifier) (signature : List Nat) (reg : PersistentRegistry σ) : Bool :=
  let verifier0 := verifier.init
  let verifier1 := reg._registry.foldl
    (fun v entry => v.add_bytes (F.update_verifier version entry.2)) verifier0
  verifier1.finalize signature verifier1.get_max_signature_size

/-- Modelled from the spec: the type of `_registry` is declared in `Persistent.hpp`,
which is not among the sources; it is an associative container with one element per
key.  This is its `insert`: a key already present leaves the container as it is and
reports `false`, a new key adds the element and reports `true`. -/
def mapInsert {α : Type} (m : List (Nat × α)) (key : Nat) (value : α) :
    List (Nat × α) × Bool :=
  if m.any (fun entry => entry.1 == key) then (m, false) else (m ++ [(key, value)], true)

/-- Modelled from the spec: `erase(iterator)` of the container of `_registry`, for the
iterator that `insert` returned for `key`: the element stored under `key` is removed. -/
def mapErase {α : Type} (m : List (Nat × α)) (key : Nat) : List (Nat × α) :=
  m.eraseP (fun entry => entry.1 == key)

/-- The container invariant of `_registry`: no two elements share a key. -/
def uniqueKeys {α : Type} (m : List (Nat × α)) : Prop :=
  (m.map Prod.fst).Nodup

/-- The elements stored under `key`. -/
def entriesAt {α : Type} (m : List (Nat × α)) (key : Nat) : List (Nat × α) :=
  m.filter (fun entry => entry.1 == key)

/-- C++ `PersistentRegistry::registerPersist`; `hash` is `std::hash<std::string>`. -/
def registerPersist {σ : Type} (hash : String → Nat) (obj_name : String)
    (interface_functions : σ) (reg : PersistentRegistry σ) : PersistentRegistry σ :=
  let key := hash obj_name
  let res := mapInsert reg._registry key interface_functions
  if res.2 = false then
    let erased := mapErase res.1 key
    { reg with _registry := (mapInsert erased key interface_functions).1 }
  else
    { reg with _registry := res.1 }

/-- C++ `PersistentRegistry::unregisterPersist`: its body is a comment. -/
def unregisterPersist {σ : Type} (_obj_name : String) (reg : PersistentRegistry σ) :
    PersistentRegistry σ :=
  reg

/-- The terminating character of a C string. -/
def NUL : Char := Char.ofNat 0

/-- Writing `chars` into a character array at `offset`. -/
def writeAt (buffer : List Char) (offset : Nat) (chars : List Char) : List Char :=
  buffer.take offset ++ chars ++ buffer.drop (offset + chars.length)

/-- What `sprintf(dst, "%02x", byte)` writes for an `unsigned char`: two lowercase
hexadecimal digits and the terminator. -/
def sprintf_02x (byte : Nat) : List Char :=
  [Nat.digitChar (byte % 256 / 16), Nat.digitChar (byte % 16), NUL]

/-- What `sprintf(dst, "-%u-%u", a, b)` writes. -/
def sprintf_u_u (a b : Nat) : List Char :=
  '-' :: Nat.toDigits 10 a ++ '-' :: Nat.toDigits 10 b ++ [NUL]

/-- C++ `PersistentRegistry::generate_prefix`.  `hash_bytes` is the SHA-256 hasher:
`none` when OpenSSL fails (the function then throws `PERSIST_EXP_SHA256_HASH`),
otherwise the bytes written to `subgroup_type_name_digest`.  `stack` is the content
of the local array before it is written, and the result is the string read from the
array up to its first terminator.  The two numbers are `uint32_t`. -/
def generate_prefix (hash_bytes : List Char → Option (List Nat)) (stack : Nat → Char)
    (subgroup_type_name : List Char) (subgroup_index shard_num : Nat) :
    Option (List Char) :=
  match hash_bytes subgroup_type_name with
  | none => none
  | some subgroup_type_name_digest =>
    let buffer0 := (List.range (32 * 2 + 32)).map stack
    let buffer1 := (List.range 32).foldl
      (fun buffer i => writeAt buffer (2 * i) (sprintf_02x (subgroup_type_name_digest.getD i 0)))
      buffer0
    let buffer2 := writeAt buffer1 (2 * 32) (sprintf_u_u subgroup_index shard_num)
    some (buffer2.takeWhile (fun c => c != NUL))

/-- The hexadecimal rendering of a byte string, two lowercase digits per byte. -/
def hexString (bytes : List Nat) : List Char :=
  bytes.flatMap (fun b => [Nat.digitChar (b / 16), Nat.digitChar (b % 16)])

/-- Modelled from the spec: a persistent field, "conceptually a map version_t → bytes
plus version_t → signature plus a latest persisted marker".  `current` is the value a
new version materialises. -/
structure PersistentField where
  /-- The bytes of the log entry of each version that has one. -/
  log : List (Int × List Nat)
  /-- The signature attached to each signed version. -/
  signatures : List (Int × List Nat)
  /-- The latest materialised version. -/
  latest_version : Int
  /-- The latest persisted version. -/
  latest_persisted : Int
  /-- The bytes of the current value. -/
  current : List Nat
deriving DecidableEq, Repr

/-- The bytes of a field at a version: those of its log entry, none without one. -/
def PersistentField.bytesAt (f : PersistentField) (ver : Int) : List Nat :=
  (f.log.lookup ver).getD []

/-- Modelled from the spec: the callbacks a `PersistentField` registers.  `persist(v)`
flushes everything up to `v`, so the marker reaches `v` or the latest version. -/
def fieldFunctions : PersistentObjectFunctions PersistentField where
  version := fun ver _ f => { f with log := (ver, f.current) :: f.log, latest_version := ver }
  persist := fun ver f =>
    { f with latest_persisted := max f.latest_persisted (min ver f.latest_version) }
  update_signature := fun ver f => f.bytesAt ver
  add_signature := fun ver signature f => { f with signatures := (ver, signature) :: f.signatures }
  update_verifier := fun ver f => f.bytesAt ver
  trim := fun earliest f => { f with log := f.log.filter (fun e => earliest ≤ e.1) }
  truncate := fun last f =>
    { f with log := f.log.filter (fun e => e.1 ≤ last), latest_version := min last f.latest_version }
  get_latest_version := fun f => f.latest_version
  get_latest_persisted := fun f => f.latest_persisted

end persistent

namespace derecho

open persistent openssl

/-- The members of `Replicated<T>` that the persistence methods use.  The two
`unique_ptr` members that a move empties are optional; `wrapped_this` tells whether
the invocable wrapper is attached. -/
structure Replicated (σ : Type) where
  /-- The member `persistent_registry`, empty after the handle was moved from. -/
  persistent_registry : Option (PersistentRegistry σ)
  /-- The member `node_id`. -/
  node_id : Nat
  /-- The member `subgroup_id`. -/
  subgroup_id : Nat
  /-- The member `subgroup_index`. -/
  subgroup_index : Nat
  /-- The member `shard_num`. -/
  shard_num : Nat
  /-- The member `signer`, present when the signed log is configured. -/
  signer : Option Signer
  /-- The member `signature_size`. -/
  signature_size : Nat
  /-- Whether `wrapped_this` holds the wrapper. -/
  wrapped_this : Bool

/-- How a call of `Replicated<T>::persist` that does not return ends in the model. -/
inductive PersistFailure where
  /-- The registry pointer is empty: the call dereferences a null pointer. -/
  | null_registry
  /-- The loop was still running when the bound on its passes was reached. -/
  | still_running
  /-- The call of `sign` inside the loop does not return. -/
  | sign_overflow
deriving DecidableEq, Repr

/-- C++ `Replicated<T>::persist`: the `do ... while` loop, at most `fuel` passes of it.
The result is the handle and the bytes at `signature` when the call returns. -/
def Replicated.persist {σ : Type} (F : PersistentObjectFunctions σ) (version : Int) :
    Nat → Replicated σ → List Nat → Except PersistFailure (Replicated σ × List Nat)
  | 0, _, _ => .error .still_running
  | fuel + 1, handle, signature =>
    match handle.persistent_registry with
    | none => .error .null_registry
    | some reg =>
      let next_persisted_ver := getMinimumLatestVersion F reg
      let signed : Option (PersistentRegistry σ × Option Signer × List Nat) :=
        match handle.signer with
        | some signer =>
          (sign F next_persisted_ver signer signature reg).map
            (fun st => (st.registry, some st.signer, st.signature_buffer))
        | none => some (reg, none, signature)
      match signed with
      | none => .error .sign_overflow
      | some signed =>
        let persisted := persistent.persist F next_persisted_ver signed.1
        let handle1 := { handle with persistent_registry := some persisted, signer := signed.2.1 }
        let next_persisted_ver1 := if next_persisted_ver = -1 then version else next_persisted_ver
        if next_persisted_ver1 < version then
          Replicated.persist F version fuel handle1 signed.2.2
        else
          .ok (handle1, signed.2.2)

/-- C++ `Replicated<T>::get_minimum_latest_persisted_version`; `none` stands for the
dereference of an empty registry pointer. -/
def Replicated.get_minimum_latest_persisted_version {σ : Type}
    (F : PersistentObjectFunctions σ) (handle : Replicated σ) : Option Int :=
  handle.persistent_registry.map (getMinimumLatestPersistedVersion F)

end derecho

/-! ## Reference descriptions used in the statements -/

namespace persistent

/-- The bytes all fields stream for `version`, concatenated in iteration order. -/
def fieldBytes {σ : Type} (F : PersistentObjectFunctions σ) (version : Int)
    (entries : List (Nat × σ)) : List Nat :=
  entries.flatMap (fun entry => F.update_signature version entry.2)

/-- The versions `first, first + 1, ..., last` in increasing order, none when
`last < first`. -/
def versionRange (first last : Int) : List Int :=
  (List.range (last + 1 - first).toNat).map (fun k : Nat => first + (k : Int))

/-- The state in which the loop of `sign` starts. -/
def signStart {σ : Type} (F : PersistentObjectFunctions σ) (signer : openssl.Signer)
    (signature_buffer : List Nat) (reg : PersistentRegistry σ) : SignState σ :=
  { registry := reg
    signer := signer
    signature_buffer := signature_buffer
    local_last_signed_version := getMinimumLatestPersistedVersion F reg
    visited := [] }

/-- The run of the loop of `sign` as described: the body of the loop for each version
from the minimum latest persisted version to `latest_version`, in increasing order. -/
def signRun {σ : Type} (F : PersistentObjectFunctions σ) (latest_version : Int)
    (signer : openssl.Signer) (signature_buffer : List Nat) (reg : PersistentRegistry σ) :
    SignState σ :=
  (versionRange (getMinimumLatestPersistedVersion F reg) latest_version).foldl
    (fun st version => signVersion F version st) (signStart F signer signature_buffer reg)

/-- The byte stream described for one signed version: the field bytes of `version` in
iteration order, followed by `last_signature` exactly when there is at least one
field byte. -/
def signedBytesAt {σ : Type} (F : PersistentObjectFunctions σ) (version : Int)
    (reg : PersistentRegistry σ) : List Nat :=
  fieldBytes F version reg._registry ++
    (if 0 < (fieldBytes F version reg._registry).length then reg.last_signature else [])

end persistent

/-! ## Example data -/

namespace persistent

/-- A field with log entries at versions 1 and 3, persisted up to version 0. -/
def exampleFieldA : PersistentField :=
  { log := [(1, [10]), (3, [30, 31])], signatures := [], latest_version := 3,
    latest_persisted := 0, current := [] }

/-- A field with a log entry at version 2, persisted up to version 1. -/
def exampleFieldB : PersistentField :=
  { log := [(2, [20])], signatures := [], latest_version := 3,
    latest_persisted := 1, current := [] }

/-- A registry of two fields with the all-zero genesis signature of two bytes. -/
def exampleRegistry : PersistentRegistry PersistentField :=
  { _registry := [(1, exampleFieldA), (2, exampleFieldB)], last_signed_version := -1,
    last_signature := [0, 0] }

/-- A registry without fields. -/
def emptyRegistry : PersistentRegistry PersistentField :=
  { _registry := [], last_signed_version := -1, last_signature := [] }

/-- A registry whose only field has log entries at versions 1 and 3 and none at 2. -/
def singleFieldRegistry : PersistentRegistry PersistentField :=
  { _registry := [(1, exampleFieldA)], last_signed_version := -1, last_signature := [0, 0] }

/-- The single-field registry with another byte in the log entry of version 1. -/
def alteredFieldRegistry : PersistentRegistry PersistentField :=
  { _registry := [(1, { exampleFieldA with log := [(1, [11]), (3, [30, 31])] })],
    last_signed_version := -1, last_signature := [0, 0] }

/-- The example registry after `initializeLastSignature(2, {5, 6}, 2)`. -/
def initializedRegistry : PersistentRegistry PersistentField :=
  initializeLastSignature 2 [5, 6] 2 exampleRegistry

/-- A toy signer: the signature of a stream is its byte sum plus 7 and its length. -/
def exampleSigner : openssl.Signer :=
  { sign_bytes := fun stream => [(stream.sum + 7) % 256, stream.length % 256], data := [] }

end persistent

namespace derecho

open persistent

/-- The value of `get_minimum_latest_persisted_version()` right after a call of
`persist(version, signature)` that returns within `fuel` passes; `none` when the call
does not return. -/
def minimumLatestPersistedAfterPersist {σ : Type} (F : PersistentObjectFunctions σ)
    (version : Int) (fuel : Nat) (handle : Replicated σ) (signature : List Nat) : Option Int :=
  match Replicated.persist F version fuel handle signature with
  | .ok result => Replicated.get_minimum_latest_persisted_version F result.1
  | .error _ => none

/-- A valid handle of an object without persistent fields, signing disabled. -/
def emptyHandle : Replicated PersistentField :=
  { persistent_registry := some emptyRegistry, node_id := 10, subgroup_id := 0,
    subgroup_index := 0, shard_num := 0, signer := none, signature_size := 0,
    wrapped_this := true }

/-- A valid handle of the example registry with the toy signer. -/
def exampleHandle : Replicated PersistentField :=
  { persistent_registry := some exampleRegistry, node_id := 10, subgroup_id := 0,
    subgroup_index := 0, shard_num := 0, signer := some exampleSigner, signature_size := 2,
    wrapped_this := true }

/-- The callbacks of a field that drops its versions when it persists: its latest
version falls back to -1. -/
def loweringFunctions : PersistentObjectFunctions PersistentField :=
  { fieldFunctions with
    persist := fun ver f =>
      { f with
        latest_persisted := max f.latest_persisted (min ver f.latest_version)
        latest_version := -1 } }

/-- A valid handle of the example registry, signing disabled. -/
def unsignedHandle : Replicated PersistentField :=
  { exampleHandle with signer := none, signature_size := 0 }

/-- A valid handle with the toy signer whose only field has made and persisted the
largest version. -/
def maxHandle : Replicated PersistentField :=
  { exampleHandle with
    persistent_registry := some
      { _registry := [(1, { exampleFieldA with latest_version := INT64_MAX,
                                               latest_persisted := INT64_MAX })]
        last_signed_version := -1
        last_signature := [0, 0] } }

/-- The example handle and the signature buffer after `persist(3, signature)` returned. -/
def exampleHandlePersisted : Replicated PersistentField × List Nat :=
  match Replicated.persist fieldFunctions 3 1 exampleHandle [0, 0] with
  | .ok result => result
  | .error _ => (exampleHandle, [])

end derecho

/-! ## The send paths and the life cycle of the handle -/

namespace derecho

open persistent openssl

/-- A call that a handle makes on the view manager or on the RPC manager. -/
inductive ManagerCall where
  /-- C++ `view_manager.get_current_view()`. -/
  | get_current_view
  /-- C++ `view_manager.get_max_payload_sizes()`. -/
  | get_max_payload_sizes
  /-- C++ `get_sendbuffer_ptr(dest_node, P2P_REQUEST)`. -/
  | get_sendbuffer_ptr (dest_node : Nat)
  /-- C++ `finish_p2p_send(dest_node, subgroup_id, pending)`. -/
  | finish_p2p_send (dest_node subgroup_id pending : Nat)
  /-- C++ `curr_view->multicast_group->send(subgroup_id, payload_size, serializer, true)`. -/
  | multicast_send (subgroup_id payload_size : Nat)
  /-- C++ `finish_rpc_send(subgroup_id, pending)`. -/
  | finish_rpc_send (subgroup_id pending : Nat)
  /-- C++ `view_manager.send(subgroup_id, payload_size, msg_generator)`. -/
  | send (subgroup_id payload_size : Nat)
  /-- C++ `destroy_remote_invocable_class(subgroup_id)`. -/
  | destroy_remote_invocable_class (subgroup_id : Nat)
  /-- The view manager's `view_mutex` is acquired in shared mode. -/
  | lock_shared
  /-- The shared hold of the view manager's `view_mutex` is released. -/
  | unlock_shared
deriving DecidableEq, Repr

/-- Modelled from the spec: the RPC manager with its view manager, the collaborators
of section 6, none of which is among the sources.  `curr_view` lists the members of
the current view by rank, `max_payload_sizes` is the table of
`get_max_payload_sizes()`, `multicast_refusals` tells how many more times the
multicast group refuses a send before it accepts one, `invocations` counts the
invocations made so far and numbers their result futures, and `calls` records the
calls received, oldest first. -/
structure RPCManager where
  /-- The members of the current view, by rank. -/
  curr_view : List Nat
  /-- The table `get_max_payload_sizes()`: subgroup and its maximum payload size. -/
  max_payload_sizes : List (Nat × Nat)
  /-- How many more sends the multicast group refuses. -/
  multicast_refusals : Nat
  /-- The number of invocations made so far. -/
  invocations : Nat
  /-- The calls received so far. -/
  calls : List ManagerCall
deriving DecidableEq, Repr

/-- The recording of one call. -/
def RPCManager.record (m : RPCManager) (call : ManagerCall) : RPCManager :=
  { m with calls := m.calls ++ [call] }

/-- Modelled from the spec: `View::rank_of`, "−1 meaning not a member", otherwise the
position of the node among the members. -/
def rank_of (members : List Nat) (node : Nat) : Int :=
  if node ∈ members then (members.indexOf node : Int) else -1

/-- The exceptions of the send paths. -/
inductive SendError where
  /-- C++ `empty_reference_exception`. -/
  | empty_reference
  /-- C++ `invalid_node_exception`. -/
  | invalid_node
  /-- C++ `derecho_exception("The size of serialized args exceeds the maximum message size.")`. -/
  | payload_too_large
  /-- C++ `std::out_of_range`, thrown by `at`. -/
  | out_of_range
  /-- The failed `assert(dest_node != node_id)`. -/
  | assertion_failed
deriving DecidableEq, Repr

/-- Modelled from the spec: `is_valid()` is declared in `replicated.hpp`, which is not
among the sources; it "reports whether the underlying invocable wrapper is attached". -/
def Replicated.is_valid {σ : Type} (handle : Replicated σ) : Bool :=
  handle.wrapped_this

/-- Modelled from the spec: `wrapped_this->send<tag>(allocator, args...)` of the
invocable wrapper, which is not among the sources: it asks the allocator for a buffer
of the serialized size of the arguments, marshals them and returns the results future
and the pending results of a new invocation, both identified by its number.  The
arguments are represented by their serialized size; `allocator` is the outcome of the
allocator lambda for that size, the manager after its calls and the buffer or the
exception. -/
def wrappedSend (allocator : RPCManager × Except SendError Unit) :
    RPCManager × Except SendError (Nat × Nat) :=
  match allocator.2 with
  | .error e => (allocator.1, .error e)
  | .ok _ =>
    ({ allocator.1 with invocations := allocator.1.invocations + 1 },
      .ok (allocator.1.invocations, allocator.1.invocations))

/-- C++ `Replicated<T>::p2p_send`.  `max_p2p_request_payload_size` is the value of
`getConfUInt64(CONF_DERECHO_MAX_P2P_REQUEST_PAYLOAD_SIZE)` and `size` the serialized
size of the arguments.  The result is the manager afterwards and the results future or
the exception. -/
def Replicated.p2p_send {σ : Type} (max_p2p_request_payload_size : Nat)
    (handle : Replicated σ) (dest_node : Nat) (size : Nat) (m : RPCManager) :
    RPCManager × Except SendError Nat :=
  if handle.is_valid then
    let m1 := m.record .get_current_view
    if rank_of m1.curr_view dest_node = -1 then
      (m1, .error .invalid_node)
    else
      let return_pair := wrappedSend
        (if size ≤ max_p2p_request_payload_size then
          (m1.record (.get_sendbuffer_ptr dest_node), .ok ())
        else (m1, .error .payload_too_large))
      match return_pair.2 with
      | .error e => (return_pair.1, .error e)
      | .ok (results, pending) =>
        (return_pair.1.record (.finish_p2p_send dest_node handle.subgroup_id pending), .ok results)
  else
    (m, .error .empty_reference)

/-- C++ `get_max_payload_sizes().at(subgroup_id)`. -/
def maxPayloadSizeAt (m : RPCManager) (subgroup_id : Nat) : Except SendError Nat :=
  match m.max_payload_sizes.lookup subgroup_id with
  | some max_payload_size => .ok max_payload_size
  | none => .error .out_of_range

/-- The `serializer` lambda of `ordered_send`, run by the multicast group on the buffer
of an accepted send. -/
def orderedSerializer (subgroup_id size : Nat) (m : RPCManager) :
    RPCManager × Except SendError (Nat × Nat) :=
  let m1 := m.record .get_max_payload_sizes
  match maxPayloadSizeAt m1 subgroup_id with
  | .error e => (m1, .error e)
  | .ok max_payload_size =>
    wrappedSend
      (if size ≤ max_payload_size then (m1, .ok ()) else (m1, .error .payload_too_large))

/-- The wait of `ordered_send`, `view_change_cv.wait(view_read_lock, predicate)`: the
predicate is evaluated with the lock held; while it is false the thread blocks in
`wait(view_read_lock)`, which releases the lock and takes it again when woken, and
the predicate is evaluated again.  The predicate is the send of the multicast group;
the first argument is the number of refusals left before it accepts. -/
def orderedWait (subgroup_id size : Nat) : Nat → RPCManager →
    RPCManager × Except SendError (Nat × Nat)
  | 0, m => orderedSerializer subgroup_id size (m.record (.multicast_send subgroup_id size))
  | refusals + 1, m =>
    orderedWait subgroup_id size refusals
      { ((m.record (.multicast_send subgroup_id size)).record .unlock_shared).record
          .lock_shared with multicast_refusals := refusals }

/-- C++ `Replicated<T>::ordered_send`; `size` is both the value of
`get_size_for_ordered_send` and the serialized size of the arguments.  The
`std::shared_lock` on `view_mutex` is taken before the wait and released when the
function is left, by return or by exception. -/
def Replicated.ordered_send {σ : Type} (handle : Replicated σ) (size : Nat)
    (m : RPCManager) : RPCManager × Except SendError Nat :=
  if handle.is_valid then
    let sent := orderedWait handle.subgroup_id size m.multicast_refusals (m.record .lock_shared)
    match sent.2 with
    | .error e => (sent.1.record .unlock_shared, .error e)
    | .ok (results, pending) =>
      ((sent.1.record (.finish_rpc_send handle.subgroup_id pending)).record .unlock_shared,
        .ok results)
  else
    (m, .error .empty_reference)

/-- C++ `Replicated<T>::send`, the raw send. -/
def Replicated.send {σ : Type} (handle : Replicated σ) (payload_size : Nat)
    (m : RPCManager) : RPCManager :=
  m.record (.send handle.subgroup_id payload_size)

/-- C++ `Replicated<T>::make_version`. -/
def Replicated.make_version {σ : Type} (F : PersistentObjectFunctions σ) (ver : Int)
    (hlc : Nat) (handle : Replicated σ) : Except PersistFailure (Replicated σ) :=
  match handle.persistent_registry with
  | none => .error .null_registry
  | some reg => .ok { handle with persistent_registry := some (makeVersion F ver hlc reg) }

/-- C++ `Replicated<T>::trim`. -/
def Replicated.trim {σ : Type} (F : PersistentObjectFunctions σ) (earliest_version : Int)
    (handle : Replicated σ) : Except PersistFailure (Replicated σ) :=
  match handle.persistent_registry with
  | none => .error .null_registry
  | some reg =>
    .ok { handle with persistent_registry := some (persistent.trim F earliest_version reg) }

/-- C++ `Replicated<T>::truncate`. -/
def Replicated.truncate {σ : Type} (F : PersistentObjectFunctions σ) (latest_version : Int)
    (handle : Replicated σ) : Except PersistFailure (Replicated σ) :=
  match handle.persistent_registry with
  | none => .error .null_registry
  | some reg =>
    .ok { handle with persistent_registry := some (persistent.truncate F latest_version reg) }

/-- What the move constructor leaves in its argument: the moved `unique_ptr` members are
empty, the other members keep their values. -/
def Replicated.movedFrom {σ : Type} (rhs : Replicated σ) : Replicated σ :=
  { rhs with persistent_registry := none, signer := none, wrapped_this := false }

/-- C++ `Replicated<T>::Replicated(Replicated&& rhs)`: the new handle and `rhs` afterwards;
`none` when `rhs` has no registry, which the body dereferences. -/
def Replicated.move {σ : Type} (rhs : Replicated σ) : Option (Replicated σ × Replicated σ) :=
  match rhs.persistent_registry with
  | none => none
  | some _ => some (rhs, rhs.movedFrom)

/-- C++ `Replicated<T>::~Replicated`. -/
def Replicated.destroy {σ : Type} (handle : Replicated σ) (m : RPCManager) : RPCManager :=
  if handle.wrapped_this then m.record (.destroy_remote_invocable_class handle.subgroup_id)
  else m

/-- The number of calls of `destroy_remote_invocable_class(subgroup_id)` received. -/
def deregistrations (m : RPCManager) (subgroup_id : Nat) : Nat :=
  m.calls.count (.destroy_remote_invocable_class subgroup_id)

/-- The members of `ExternalCaller<T>`; `wrapped_this` tells whether the wrapper is
attached, which is what its `is_valid()` reports. -/
structure ExternalCaller where
  /-- The member `node_id`. -/
  node_id : Nat
  /-- The member `subgroup_id`. -/
  subgroup_id : Nat
  /-- Whether `wrapped_this` holds the wrapper. -/
  wrapped_this : Bool
deriving DecidableEq, Repr

/-- C++ `ExternalCaller<T>::p2p_send`. -/
def ExternalCaller.p2p_send (caller : ExternalCaller) (dest_node : Nat) (size : Nat)
    (m : RPCManager) : RPCManager × Except SendError Nat :=
  if caller.wrapped_this then
    if dest_node = caller.node_id then (m, .error .assertion_failed)
    else
      let m1 := m.record .get_current_view
      if rank_of m1.curr_view dest_node = -1 then
        (m1, .error .invalid_node)
      else
        let m2 := m1.record .get_max_payload_sizes
        let return_pair := wrappedSend
          (match maxPayloadSizeAt m2 caller.subgroup_id with
            | .error e => (m2, .error e)
            | .ok max_payload_size =>
              if size ≤ max_payload_size then
                (m2.record (.get_sendbuffer_ptr dest_node), .ok ())
              else (m2, .error .payload_too_large))
        match return_pair.2 with
        | .error e => (return_pair.1, .error e)
        | .ok (results, pending) =>
          (return_pair.1.record (.finish_p2p_send dest_node caller.subgroup_id pending),
            .ok results)
  else
    (m, .error .empty_reference)

/-- The members of `ShardIterator<T>`. -/
structure ShardIterator where
  /-- The member `EC`. -/
  EC : ExternalCaller
  /-- The member `shard_reps`. -/
  shard_reps : List Nat
deriving DecidableEq, Repr

/-- The loop `for(uint i = 1; i < shard_reps.size(); ++i)` of `ShardIterator::p2p_send`;
the first argument bounds the number of rounds, and an exception ends the loop. -/
def shardLoop (it : ShardIterator) (size : Nat) :
    Nat → Nat → List Nat → RPCManager → RPCManager × Except SendError (List Nat)
  | 0, _, send_result_vec, m => (m, .ok send_result_vec)
  | fuel + 1, i, send_result_vec, m =>
    if i < it.shard_reps.length then
      match it.EC.p2p_send (it.shard_reps.getD i 0) size m with
      | (m1, .error e) => (m1, .error e)
      | (m1, .ok send_result) => shardLoop it size fuel (i + 1) (send_result_vec ++ [send_result]) m1
    else (m, .ok send_result_vec)

/-- C++ `ShardIterator<T>::p2p_send`. -/
def ShardIterator.p2p_send (it : ShardIterator) (size : Nat) (m : RPCManager) :
    RPCManager × Except SendError (List Nat) :=
  match it.shard_reps with
  | [] => (m, .error .out_of_range)
  | first :: _ =>
    match it.EC.p2p_send first size m with
    | (m1, .error e) => (m1, .error e)
    | (m1, .ok send_result) => shardLoop it size (it.shard_reps.length - 1) 1 [send_result] m1

/-- One pass of the loop of `persist` as described: `sign`, when a signer is present,
and then the registry's `persist`, both with `getMinimumLatestVersion()` as argument.
The result is the handle and the bytes at `signature` after the pass, `none` when
`sign` does not return. -/
def persistPass {σ : Type} (F : PersistentObjectFunctions σ) (handle : Replicated σ)
    (reg : PersistentRegistry σ) (signature : List Nat) : Option (Replicated σ × List Nat) :=
  match handle.signer with
  | some signer =>
    (sign F (getMinimumLatestVersion F reg) signer signature reg).map
      (fun st =>
        ({ handle with
            persistent_registry :=
              some (persistent.persist F (getMinimumLatestVersion F reg) st.registry)
            signer := some st.signer },
          st.signature_buffer))
  | none =>
    some ({ handle with
        persistent_registry := some (persistent.persist F (getMinimumLatestVersion F reg) reg)
        signer := none },
      signature)

/-- The events of one refused attempt of `ordered_send`: the send is offered to the
multicast group and refused, the wait releases the lock, and takes it again when woken. -/
def refusedAttempt (subgroup_id size : Nat) : List ManagerCall :=
  [.multicast_send subgroup_id size, .unlock_shared, .lock_shared]

/-- The events of the accepted attempt of `ordered_send` and of what follows it: the send
is offered and accepted, the serializer asks for the maximum payload size, the pending
results are registered, and the lock is released on leaving the function. -/
def acceptedAttempt (subgroup_id size pending : Nat) : List ManagerCall :=
  [.multicast_send subgroup_id size, .get_max_payload_sizes,
    .finish_rpc_send subgroup_id pending, .unlock_shared]

/-- The manager of scenario S4: the view of the nodes 10, 20 and 30. -/
def exampleManager : RPCManager :=
  { curr_view := [10, 20, 30], max_payload_sizes := [(0, 200)], multicast_refusals := 1,
    invocations := 0, calls := [] }

/-- The manager of scenario S5: a view that holds the representatives 11, 21 and 31. -/
def shardManager : RPCManager :=
  { curr_view := [11, 21, 31, 99], max_payload_sizes := [(0, 200)], multicast_refusals := 0,
    invocations := 0, calls := [] }

/-- An external caller at node 99 for subgroup 0. -/
def exampleCaller : ExternalCaller :=
  { node_id := 99, subgroup_id := 0, wrapped_this := true }

end derecho

/-! ## The minimum scans -/

namespace persistent

theorem minimumScan_false_le {σ : Type} (get : σ → Int) (l : List (Nat × σ)) (m : Int) :
    minimumScan get l false m ≤ m ∧ ∀ e ∈ l, minimumScan get l false m ≤ get e.2 := by
  induction l generalizing m with
  | nil => simp [minimumScan]
  | cons a rest ih =>
    simp only [minimumScan, Bool.false_eq_true, if_false, List.mem_cons, forall_eq_or_imp]
    by_cases h : m > get a.2
    · simp only [h, if_true]
      have := ih (get a.2)
      exact ⟨by omega, this.1, this.2⟩
    · simp only [h, if_false]
      have := ih m
      exact ⟨this.1, by omega, this.2⟩

theorem minimumScan_false_mem {σ : Type} (get : σ → Int) (l : List (Nat × σ)) (m : Int) :
    minimumScan get l false m = m ∨ ∃ e ∈ l, minimumScan get l false m = get e.2 := by
  induction l generalizing m with
  | nil => simp [minimumScan]
  | cons a rest ih =>
    simp only [minimumScan, Bool.false_eq_true, if_false, List.mem_cons, exists_eq_or_imp]
    by_cases h : m > get a.2
    · simp only [h, if_true]
      rcases ih (get a.2) with h1 | ⟨e, he, h1⟩
      · exact Or.inr (Or.inl h1)
      · exact Or.inr (Or.inr ⟨e, he, h1⟩)
    · simp only [h, if_false]
      rcases ih m with h1 | ⟨e, he, h1⟩
      · exact Or.inl h1
      · exact Or.inr (Or.inr ⟨e, he, h1⟩)

theorem minimumScan_true_le {σ : Type} (get : σ → Int) (l : List (Nat × σ)) (m : Int) :
    ∀ e ∈ l, minimumScan get l true m ≤ get e.2 := by
  cases l with
  | nil => simp
  | cons a rest =>
    simp only [minimumScan, if_true, List.mem_cons, forall_eq_or_imp]
    exact minimumScan_false_le get rest (get a.2)

theorem minimumScan_true_mem {σ : Type} (get : σ → Int) (l : List (Nat × σ)) (m : Int)
    (hne : l ≠ []) : ∃ e ∈ l, minimumScan get l true m = get e.2 := by
  cases l with
  | nil => exact absurd rfl hne
  | cons a rest =>
    simp only [minimumScan, if_true, List.mem_cons, exists_eq_or_imp]
    rcases minimumScan_false_mem get rest (get a.2) with h1 | ⟨e, he, h1⟩
    · exact Or.inl h1
    · exact Or.inr ⟨e, he, h1⟩

theorem minimumScan_eq_of_map_eq {σ τ : Type} (get : σ → Int) (get2 : τ → Int)
    (l : List (Nat × σ)) (l2 : List (Nat × τ))
    (h : l.map (fun e => get e.2) = l2.map (fun e => get2 e.2)) (b : Bool) (m : Int) :
    minimumScan get l b m = minimumScan get2 l2 b m := by
  induction l generalizing l2 b m with
  | nil =>
    cases l2 with
    | nil => rfl
    | cons a r => simp at h
  | cons a rest ih =>
    cases l2 with
    | nil => simp at h
    | cons a2 r2 =>
      simp only [List.map_cons, List.cons.injEq] at h
      simp only [minimumScan, h.1]
      rw [ih r2 h.2 false (get2 a2.2), ih r2 h.2 false m]

/-- C2: `getMinimumLatestPersistedVersion` is -1 on a registry without fields;
otherwise it is the minimum of `get_latest_persisted()` over the registered fields,
that is, at most every field's marker and equal to the marker of some field; and it
is -1 when every field reports -1. -/
theorem getMinimumLatestPersistedVersion_is_minimum {σ : Type}
    (F : PersistentObjectFunctions σ) (reg : PersistentRegistry σ) :
    (reg._registry = [] → getMinimumLatestPersistedVersion F reg = -1)
    ∧ (reg._registry ≠ [] →
        (∀ e ∈ reg._registry, getMinimumLatestPersistedVersion F reg ≤ F.get_latest_persisted e.2)
        ∧ ∃ e ∈ reg._registry, getMinimumLatestPersistedVersion F reg = F.get_latest_persisted e.2)
    ∧ ((∀ e ∈ reg._registry, F.get_latest_persisted e.2 = -1) →
        getMinimumLatestPersistedVersion F reg = -1) := by
  refine ⟨?_, ?_, ?_⟩
  · intro h
    simp [getMinimumLatestPersistedVersion, h, minimumScan]
  · intro h
    exact ⟨minimumScan_true_le _ _ _, minimumScan_true_mem _ _ _ h⟩
  · intro h
    by_cases hne : reg._registry = []
    · simp [getMinimumLatestPersistedVersion, hne, minimumScan]
    · obtain ⟨e, he, heq⟩ := minimumScan_true_mem F.get_latest_persisted reg._registry (-1) hne
      unfold getMinimumLatestPersistedVersion
      rw [heq, h e he]

/-- C2, on the example registry: the markers are 0 and 1 and the minimum is 0. -/
theorem getMinimumLatestPersistedVersion_is_minimum_witness :
    exampleRegistry._registry ≠ []
    ∧ getMinimumLatestPersistedVersion fieldFunctions exampleRegistry = 0
    ∧ ((∀ e ∈ exampleRegistry._registry,
          getMinimumLatestPersistedVersion fieldFunctions exampleRegistry
            ≤ fieldFunctions.get_latest_persisted e.2)
        ∧ ∃ e ∈ exampleRegistry._registry,
          getMinimumLatestPersistedVersion fieldFunctions exampleRegistry
            = fieldFunctions.get_latest_persisted e.2) :=
  ⟨by decide, by decide,
    (getMinimumLatestPersistedVersion_is_minimum fieldFunctions exampleRegistry).2.1 (by decide)⟩

end persistent

/-! ## The signing loop -/

namespace persistent

open openssl

theorem updateSignatures_eq {σ : Type} (F : PersistentObjectFunctions σ) (version : Int)
    (entries : List (Nat × σ)) (signer : Signer) (n : Nat) :
    updateSignatures F version entries signer n
      = ({ signer with data := signer.data ++ fieldBytes F version entries },
          n + (fieldBytes F version entries).length) := by
  induction entries generalizing signer n with
  | nil => simp [updateSignatures, fieldBytes]
  | cons a rest ih =>
    simp only [updateSignatures, ih, fieldBytes, List.flatMap_cons, List.length_append,
      Signer.add_bytes, List.append_assoc, Nat.add_assoc]

theorem signVersion_signed_bytes {σ : Type} (F : PersistentObjectFunctions σ) (version : Int)
    (st : SignState σ) :
    (signVersion F version st).visited = st.visited ++
      [⟨version,
        fieldBytes F version st.registry._registry ++
          (if 0 < (fieldBytes F version st.registry._registry).length
            then st.registry.last_signature else []),
        (signVersion F version st).signature_buffer⟩] := by
  simp only [signVersion, updateSignatures_eq, Signer.init, Nat.zero_add, gt_iff_lt]
  by_cases h : 0 < (fieldBytes F version st.registry._registry).length
  · simp [h, Signer.add_bytes]
  · simp [h]

/-- The loop returns when the target is below the largest version or nothing is left to
visit, and its result is the body applied to the versions of the range in turn. -/
theorem signLoop_eq_foldl {σ : Type} (F : PersistentObjectFunctions σ) (latest_version : Int)
    (fuel : Nat) (version : Int) (st : SignState σ)
    (hfuel : fuel = (latest_version + 1 - version).toNat)
    (hreturns : latest_version < INT64_MAX ∨ latest_version < version) :
    signLoop F latest_version fuel version st
      = some (((List.range fuel).map (fun k : Nat => version + (k : Int))).foldl
          (fun s v => signVersion F v s) st) := by
  induction fuel generalizing version st with
  | zero =>
    have hgt : ¬ version ≤ latest_version := by omega
    simp [signLoop, hgt]
  | succ n ih =>
    have hle : version ≤ latest_version := by omega
    have hlt : version < INT64_MAX := by omega
    simp only [signLoop, hle, hlt, if_true]
    rw [ih (version + 1) _ (by omega) (by omega), List.range_succ_eq_map]
    simp only [List.map_cons, List.foldl_cons, List.map_map, Nat.cast_zero, add_zero]
    congr 3
    funext k
    simp only [Function.comp, Nat.succ_eq_add_one, Nat.cast_add, Nat.cast_one]
    omega

/-- The loop does not return when it has a version to visit and the target is the
largest version or beyond. -/
theorem signLoop_eq_none {σ : Type} (F : PersistentObjectFunctions σ) (latest_version : Int)
    (fuel : Nat) (version : Int) (st : SignState σ)
    (hle : version ≤ latest_version) (hmax : INT64_MAX ≤ latest_version) :
    signLoop F latest_version fuel version st = none := by
  induction fuel generalizing version st with
  | zero => simp [signLoop, hle]
  | succ n ih =>
    simp only [signLoop, hle, if_true]
    by_cases hlt : version < INT64_MAX
    · rw [if_pos hlt]
      exact ih (version + 1) _ (by omega)
    · rw [if_neg hlt]

theorem versionRange_of_lt (first last : Int) (h : last < first) : versionRange first last = [] := by
  have : (last + 1 - first).toNat = 0 := by omega
  simp [versionRange, this]

theorem versionRange_succ (first last : Int) (h : first ≤ last + 1) :
    versionRange first (last + 1) = versionRange first last ++ [last + 1] := by
  have h1 : (last + 1 + 1 - first).toNat = (last + 1 - first).toNat + 1 := by omega
  simp only [versionRange, h1, List.range_succ, List.map_append, List.map_cons, List.map_nil,
    List.append_cancel_left_eq, List.cons.injEq, and_true]
  omega

theorem mem_versionRange (first last v : Int) :
    v ∈ versionRange first last ↔ first ≤ v ∧ v ≤ last := by
  simp only [versionRange, List.mem_map, List.mem_range]
  constructor
  · rintro ⟨k, hk, rfl⟩
    omega
  · intro h
    exact ⟨(v - first).toNat, by omega, by omega⟩

theorem versionRange_pairwise (first last : Int) :
    (versionRange first last).Pairwise (fun a b => a < b) := by
  unfold versionRange
  rw [List.pairwise_map]
  refine List.Pairwise.imp ?_ (List.pairwise_lt_range _)
  intro a b hab
  omega

theorem signRun_eq_foldl {σ : Type} (F : PersistentObjectFunctions σ) (latest_version : Int)
    (signer : Signer) (signature_buffer : List Nat) (reg : PersistentRegistry σ) :
    signRun F latest_version signer signature_buffer reg
      = (versionRange (getMinimumLatestPersistedVersion F reg) latest_version).foldl
          (fun s v => signVersion F v s) (signStart F signer signature_buffer reg) :=
  rfl

/-- Below the largest version, or with nothing to visit, `sign` returns the run. -/
theorem sign_eq_some {σ : Type} (F : PersistentObjectFunctions σ) (latest_version : Int)
    (signer : Signer) (signature_buffer : List Nat) (reg : PersistentRegistry σ)
    (hreturns : latest_version < INT64_MAX
      ∨ latest_version < getMinimumLatestPersistedVersion F reg) :
    sign F latest_version signer signature_buffer reg
      = some (signRun F latest_version signer signature_buffer reg) := by
  unfold sign
  exact signLoop_eq_foldl F latest_version _ _ _ rfl hreturns

/-- With a version to visit and the largest version as target, `sign` does not return. -/
theorem sign_eq_none {σ : Type} (F : PersistentObjectFunctions σ) (latest_version : Int)
    (signer : Signer) (signature_buffer : List Nat) (reg : PersistentRegistry σ)
    (hle : getMinimumLatestPersistedVersion F reg ≤ latest_version)
    (hmax : INT64_MAX ≤ latest_version) :
    sign F latest_version signer signature_buffer reg = none := by
  unfold sign
  exact signLoop_eq_none F latest_version _ _ _ hle hmax

/-- Whenever `sign` returns, its result is the run and the target allowed the return. -/
theorem eq_signRun_of_sign {σ : Type} (F : PersistentObjectFunctions σ) (latest_version : Int)
    (signer : Signer) (signature_buffer : List Nat) (reg : PersistentRegistry σ)
    (st : SignState σ) (h : sign F latest_version signer signature_buffer reg = some st) :
    st = signRun F latest_version signer signature_buffer reg
    ∧ (latest_version < INT64_MAX ∨ latest_version < getMinimumLatestPersistedVersion F reg) := by
  by_cases hreturns : latest_version < INT64_MAX
      ∨ latest_version < getMinimumLatestPersistedVersion F reg
  · rw [sign_eq_some F latest_version signer signature_buffer reg hreturns] at h
    exact ⟨(Option.some.inj h).symm, hreturns⟩
  · rw [sign_eq_none F latest_version signer signature_buffer reg (by omega) (by omega)] at h
    exact absurd h (by simp)

theorem signRun_of_lt {σ : Type} (F : PersistentObjectFunctions σ) (latest_version : Int)
    (signer : Signer) (signature_buffer : List Nat) (reg : PersistentRegistry σ)
    (h : latest_version < getMinimumLatestPersistedVersion F reg) :
    signRun F latest_version signer signature_buffer reg
      = signStart F signer signature_buffer reg := by
  rw [signRun_eq_foldl, versionRange_of_lt _ _ h]
  rfl

theorem signRun_succ {σ : Type} (F : PersistentObjectFunctions σ) (latest_version : Int)
    (signer : Signer) (signature_buffer : List Nat) (reg : PersistentRegistry σ)
    (h : getMinimumLatestPersistedVersion F reg ≤ latest_version + 1) :
    signRun F (latest_version + 1) signer signature_buffer reg
      = signVersion F (latest_version + 1)
          (signRun F latest_version signer signature_buffer reg) := by
  rw [signRun_eq_foldl, signRun_eq_foldl, versionRange_succ _ _ h, List.foldl_append]
  rfl

/-- The record of the run: one visit per version of the range, each signing
`signedBytesAt` of the registry as the visits before it left it. -/
theorem signRun_visited_eq {σ : Type} (F : PersistentObjectFunctions σ) (latest_version : Int)
    (signer : Signer) (signature_buffer : List Nat) (reg : PersistentRegistry σ) :
    (signRun F latest_version signer signature_buffer reg).visited
      = (versionRange (getMinimumLatestPersistedVersion F reg) latest_version).map
          (fun v => ⟨v, signedBytesAt F v (signRun F (v - 1) signer signature_buffer reg).registry,
            (signRun F v signer signature_buffer reg).signature_buffer⟩) := by
  obtain ⟨n, hn⟩ : ∃ n : Nat, n = (latest_version + 1 - getMinimumLatestPersistedVersion F reg).toNat :=
    ⟨_, rfl⟩
  induction n generalizing latest_version with
  | zero =>
    have hlt : latest_version < getMinimumLatestPersistedVersion F reg := by omega
    rw [signRun_of_lt _ _ _ _ _ hlt, versionRange_of_lt _ _ hlt]
    rfl
  | succ n ih =>
    have hle : getMinimumLatestPersistedVersion F reg ≤ (latest_version - 1) + 1 := by omega
    have hprev := ih (latest_version - 1) (by omega)
    have hs := signRun_succ F (latest_version - 1) signer signature_buffer reg hle
    have hr := versionRange_succ (getMinimumLatestPersistedVersion F reg) (latest_version - 1) hle
    simp only [Int.sub_add_cancel] at hs hr
    rw [hr, List.map_append, ← hprev]
    conv_lhs => rw [hs]
    rw [signVersion_signed_bytes, ← hs]
    rfl

theorem signVersion_last_signed_version {σ : Type} (F : PersistentObjectFunctions σ)
    (version : Int) (st : SignState σ) :
    (signVersion F version st).registry.last_signed_version = st.registry.last_signed_version :=
  rfl

theorem signRun_last_signed_version {σ : Type} (F : PersistentObjectFunctions σ)
    (latest_version : Int) (signer : Signer) (signature_buffer : List Nat)
    (reg : PersistentRegistry σ) :
    (signRun F latest_version signer signature_buffer reg).registry.last_signed_version
      = reg.last_signed_version := by
  rw [signRun_eq_foldl]
  generalize versionRange (getMinimumLatestPersistedVersion F reg) latest_version = vs
  have key : ∀ (st : SignState σ),
      (vs.foldl (fun s v => signVersion F v s) st).registry.last_signed_version
        = st.registry.last_signed_version := by
    induction vs with
    | nil => intro st; rfl
    | cons v rest ih =>
      intro st
      rw [List.foldl_cons, ih, signVersion_last_signed_version]
  exact key _

theorem mem_signRun_visited {σ : Type} (F : PersistentObjectFunctions σ) (latest_version : Int)
    (signer : Signer) (signature_buffer : List Nat) (reg : PersistentRegistry σ)
    (visit : SignVisit)
    (h : visit ∈ (signRun F latest_version signer signature_buffer reg).visited) :
    getMinimumLatestPersistedVersion F reg ≤ visit.version ∧ visit.version ≤ latest_version
    ∧ visit.signed_bytes
        = signedBytesAt F visit.version
            (signRun F (visit.version - 1) signer signature_buffer reg).registry
    ∧ visit.signature = (signRun F visit.version signer signature_buffer reg).signature_buffer := by
  rw [signRun_visited_eq, List.mem_map] at h
  obtain ⟨v, hv, rfl⟩ := h
  rw [mem_versionRange] at hv
  exact ⟨hv.1, hv.2, rfl, rfl⟩

end persistent

/-! ## What `sign` signs and where it starts -/

namespace persistent

open openssl

/-- C3, at the failing input: on the example registry, whose fields are persisted up to
version 0, `sign(3, ...)` returns after visiting four versions, and afterwards the
member `last_signed_version` still holds -1; the value 3 went to the local variable. -/
theorem sign_member_last_signed_version_not_advanced :
    (sign fieldFunctions 3 exampleSigner [0, 0] exampleRegistry).map
        (fun st => (st.visited.length, st.registry.last_signed_version,
          st.local_last_signed_version))
      = some (4, -1, 3) := by
  decide

/-- C4, refuted as stated: with `last_signed_version = -1`, the call
`initializeLastSignature(-2, {7}, 1)` stores -2, a smaller value. -/
theorem initializeLastSignature_can_decrease :
    emptyRegistry.last_signed_version = -1
    ∧ (initializeLastSignature (-2) [7] 1 emptyRegistry).last_signed_version = -2
    ∧ ¬ (emptyRegistry.last_signed_version
          ≤ (initializeLastSignature (-2) [7] 1 emptyRegistry).last_signed_version) := by
  decide

/-- C4, amended: `last_signed_version` does not decrease under
`initializeLastSignature(version, signature, size)` when `version` is at least
`INVALID_VERSION` or the stored value is not `INVALID_VERSION`, and it does not
decrease under `sign` with any arguments: no round of its loop changes it, and so
neither does a call that returns. -/
theorem last_signed_version_monotone {σ : Type} (F : PersistentObjectFunctions σ)
    (reg : PersistentRegistry σ) (version : Int) (signature : List Nat) (signature_size : Nat)
    (latest_version : Int) (signer : Signer) (signature_buffer : List Nat)
    (hversion : INVALID_VERSION ≤ version ∨ reg.last_signed_version ≠ INVALID_VERSION) :
    reg.last_signed_version
        ≤ (initializeLastSignature version signature signature_size reg).last_signed_version
    ∧ (∀ st : SignState σ, sign F latest_version signer signature_buffer reg = some st →
        reg.last_signed_version ≤ st.registry.last_signed_version)
    ∧ ∀ (round : Int) (st : SignState σ),
        st.registry.last_signed_version
          ≤ (signVersion F round st).registry.last_signed_version := by
  refine ⟨?_, ?_, fun _ _ => le_refl _⟩
  · unfold initializeLastSignature
    simp only [INVALID_VERSION] at hversion ⊢
    split
    · rename_i h
      simp only
      rcases h.2.2 with h1 | h1
      · have := h.2.1
        rcases hversion with h2 | h2
        · omega
        · exact absurd h1 h2
      · omega
    · exact le_refl _
  · intro st hst
    rw [(eq_signRun_of_sign F latest_version signer signature_buffer reg st hst).1,
      signRun_last_signed_version]

/-- C4, amended, at an instance: initialising the example registry at version 2 and
signing it up to version 3. -/
theorem last_signed_version_monotone_witness :
    (INVALID_VERSION ≤ (2 : Int) ∨ exampleRegistry.last_signed_version ≠ INVALID_VERSION)
    ∧ sign fieldFunctions 3 exampleSigner [0, 0] exampleRegistry
        = some (signRun fieldFunctions 3 exampleSigner [0, 0] exampleRegistry)
    ∧ exampleRegistry.last_signed_version
        ≤ (initializeLastSignature 2 [5, 6] 2 exampleRegistry).last_signed_version
    ∧ exampleRegistry.last_signed_version
        ≤ (signRun fieldFunctions 3 exampleSigner [0, 0] exampleRegistry).registry.last_signed_version :=
  ⟨by decide, rfl,
    (last_signed_version_monotone fieldFunctions exampleRegistry 2 [5, 6] 2 3 exampleSigner [0, 0]
      (by decide)).1,
    (last_signed_version_monotone fieldFunctions exampleRegistry 2 [5, 6] 2 3 exampleSigner [0, 0]
      (by decide)).2.1 _ rfl⟩

/-- C5: at every version that `sign` visits, the bytes given to the signer between
`init` and `finalize` are the field bytes of that version in iteration order, followed
by the registry's `last_signature` of that moment when there is at least one field
byte, and no bytes at all when the fields contribute none.  The registry of that
moment is the one `sign` leaves after the versions before.  The same holds of every
single round of the loop, from whatever state it starts. -/
theorem sign_signed_bytes {σ : Type} (F : PersistentObjectFunctions σ) (latest_version : Int)
    (signer : Signer) (signature_buffer : List Nat) (reg : PersistentRegistry σ)
    (st : SignState σ) (visit : SignVisit)
    (hsign : sign F latest_version signer signature_buffer reg = some st)
    (h : visit ∈ st.visited) :
    (∃ before : SignState σ,
      sign F (visit.version - 1) signer signature_buffer reg = some before
      ∧ (0 < (fieldBytes F visit.version before.registry._registry).length →
          visit.signed_bytes
            = fieldBytes F visit.version before.registry._registry
              ++ before.registry.last_signature)
      ∧ ((fieldBytes F visit.version before.registry._registry).length = 0 →
          visit.signed_bytes = []))
    ∧ ∀ (round : Int) (st0 : SignState σ),
        (signVersion F round st0).visited = st0.visited ++
          [⟨round,
            fieldBytes F round st0.registry._registry ++
              (if 0 < (fieldBytes F round st0.registry._registry).length
                then st0.registry.last_signature else []),
            (signVersion F round st0).signature_buffer⟩] := by
  obtain ⟨rfl, hreturns⟩ := eq_signRun_of_sign F latest_version signer signature_buffer reg st hsign
  obtain ⟨h1, h2, hb, _⟩ := mem_signRun_visited F latest_version signer signature_buffer reg visit h
  refine ⟨⟨signRun F (visit.version - 1) signer signature_buffer reg,
    sign_eq_some F _ signer signature_buffer reg (by omega), ?_, ?_⟩,
    fun round st0 => signVersion_signed_bytes F round st0⟩
  · intro hpos
    rw [hb]
    unfold signedBytesAt
    rw [if_pos hpos]
  · intro hzero
    rw [hb]
    unfold signedBytesAt
    rw [if_neg (by omega), List.length_eq_zero.mp hzero]
    rfl

/-- C5, at an instance: version 3 of the example registry signs the two bytes of the
first field followed by the signature of version 2. -/
theorem sign_signed_bytes_witness :
    sign fieldFunctions 3 exampleSigner [0, 0] exampleRegistry
        = some (signRun fieldFunctions 3 exampleSigner [0, 0] exampleRegistry)
    ∧ (⟨3, [30, 31, 54, 3], [125, 4]⟩ : SignVisit)
        ∈ (signRun fieldFunctions 3 exampleSigner [0, 0] exampleRegistry).visited
    ∧ (sign fieldFunctions 2 exampleSigner [0, 0] exampleRegistry).map
          (fun before => (fieldBytes fieldFunctions 3 before.registry._registry,
            before.registry.last_signature))
        = some ([30, 31], [54, 3])
    ∧ ∃ before : SignState PersistentField,
        sign fieldFunctions (3 - 1) exampleSigner [0, 0] exampleRegistry = some before
        ∧ (0 < (fieldBytes fieldFunctions 3 before.registry._registry).length →
            ([30, 31, 54, 3] : List Nat)
              = fieldBytes fieldFunctions 3 before.registry._registry
                ++ before.registry.last_signature)
        ∧ ((fieldBytes fieldFunctions 3 before.registry._registry).length = 0 →
            ([30, 31, 54, 3] : List Nat) = []) :=
  ⟨rfl, by decide, by decide,
    (sign_signed_bytes fieldFunctions 3 exampleSigner [0, 0] exampleRegistry
      (signRun fieldFunctions 3 exampleSigner [0, 0] exampleRegistry)
      ⟨3, [30, 31, 54, 3], [125, 4]⟩ rfl (by decide)).1⟩

/-- C6, at the failing input: after `sign(3, ...)` on the example registry with an ideal
verifier for the signer, `verify` rejects the signature that `sign` produced for each
of the versions 1, 2 and 3: `sign` added the previous signature to the signed bytes
and `verify` does not.  Only version 0, which has no field bytes, is accepted. -/
theorem verify_rejects_signatures_of_sign :
    (sign fieldFunctions 3 exampleSigner [0, 0] exampleRegistry).map
        (fun st => st.visited.map
          (fun visit => (visit.version,
            verify fieldFunctions visit.version (idealVerifier exampleSigner.sign_bytes 2)
              visit.signature st.registry)))
      = some [(0, true), (1, false), (2, false), (3, false)] := by
  decide

/-- C7, refuted as stated: the example registry initialised at version 2 stores
`last_signed_version = 2`, and `sign(3, ...)` visits the versions 0, 1, 2, 3, not 2, 3. -/
theorem sign_does_not_start_at_member :
    initializedRegistry.last_signed_version = 2
    ∧ (sign fieldFunctions 3 exampleSigner [0, 0] initializedRegistry).map
          (fun st => st.visited.map SignVisit.version)
        = some [0, 1, 2, 3]
    ∧ (sign fieldFunctions 3 exampleSigner [0, 0] initializedRegistry).map
          (fun st => st.visited.map SignVisit.version)
        ≠ some (versionRange initializedRegistry.last_signed_version 3) := by
  decide

/-- C7, amended: for a `target_version` below the largest `int64_t`,
`sign(target_version, signer, out)` returns after visiting exactly the versions
`m, m + 1, ..., target_version`, each once and in increasing order, where `m` is
`getMinimumLatestPersistedVersion()` at entry; it visits none when `m > target_version`. -/
theorem sign_visits_from_minimum_latest_persisted {σ : Type} (F : PersistentObjectFunctions σ)
    (latest_version : Int) (signer : Signer) (signature_buffer : List Nat)
    (reg : PersistentRegistry σ) (hbound : latest_version < INT64_MAX) :
    ∃ st : SignState σ,
      sign F latest_version signer signature_buffer reg = some st
      ∧ st.visited.map SignVisit.version
          = versionRange (getMinimumLatestPersistedVersion F reg) latest_version
      ∧ (st.visited.map SignVisit.version).Pairwise (fun a b => a < b)
      ∧ (∀ v : Int, v ∈ st.visited.map SignVisit.version
          ↔ getMinimumLatestPersistedVersion F reg ≤ v ∧ v ≤ latest_version)
      ∧ (latest_version < getMinimumLatestPersistedVersion F reg → st.visited = []) := by
  have hmap : (signRun F latest_version signer signature_buffer reg).visited.map SignVisit.version
      = versionRange (getMinimumLatestPersistedVersion F reg) latest_version := by
    rw [signRun_visited_eq, List.map_map]
    exact List.map_id _
  refine ⟨signRun F latest_version signer signature_buffer reg,
    sign_eq_some F latest_version signer signature_buffer reg (Or.inl hbound), hmap, ?_, ?_, ?_⟩
  · rw [hmap]
    exact versionRange_pairwise _ _
  · intro v
    rw [hmap, mem_versionRange]
  · intro hlt
    rw [signRun_of_lt _ _ _ _ _ hlt]
    rfl

/-- C7, amended, at an instance: `sign(3, ...)` on the example registry, whose fields
are persisted up to version 0, visits the versions 0, 1, 2 and 3. -/
theorem sign_visits_from_minimum_latest_persisted_witness :
    (3 : Int) < INT64_MAX
    ∧ getMinimumLatestPersistedVersion fieldFunctions exampleRegistry = 0
    ∧ versionRange 0 3 = [0, 1, 2, 3]
    ∧ ∃ st : SignState PersistentField,
        sign fieldFunctions 3 exampleSigner [0, 0] exampleRegistry = some st
        ∧ st.visited.map SignVisit.version
            = versionRange (getMinimumLatestPersistedVersion fieldFunctions exampleRegistry) 3
        ∧ (st.visited.map SignVisit.version).Pairwise (fun a b => a < b)
        ∧ (∀ v : Int, v ∈ st.visited.map SignVisit.version
            ↔ getMinimumLatestPersistedVersion fieldFunctions exampleRegistry ≤ v ∧ v ≤ 3)
        ∧ ((3 : Int) < getMinimumLatestPersistedVersion fieldFunctions exampleRegistry →
            st.visited = []) :=
  ⟨by decide, by decide, by decide,
    sign_visits_from_minimum_latest_persisted fieldFunctions 3 exampleSigner [0, 0]
      exampleRegistry (by decide)⟩

/-- C8, at the failing input: in the registry whose only field has entries at versions 1
and 3 and none at 2, the bytes signed for version 3 end with the signature computed
for the empty version 2, not with the signature of version 1; and with another byte in
the entry of version 1 the signature of version 3 is the same, so it no longer
depends on version 1. -/
theorem sign_chains_through_empty_version :
    fieldBytes fieldFunctions 1 singleFieldRegistry._registry = [10]
    ∧ fieldBytes fieldFunctions 2 singleFieldRegistry._registry = []
    ∧ fieldBytes fieldFunctions 3 singleFieldRegistry._registry = [30, 31]
    ∧ (sign fieldFunctions 3 exampleSigner [0, 0] singleFieldRegistry).map SignState.visited
        = some [⟨0, [], [7, 0]⟩, ⟨1, [10, 7, 0], [24, 3]⟩, ⟨2, [], [7, 0]⟩,
            ⟨3, [30, 31, 7, 0], [75, 4]⟩]
    ∧ (sign fieldFunctions 3 exampleSigner [0, 0] alteredFieldRegistry).map SignState.visited
        = some [⟨0, [], [7, 0]⟩, ⟨1, [11, 7, 0], [25, 3]⟩, ⟨2, [], [7, 0]⟩,
            ⟨3, [30, 31, 7, 0], [75, 4]⟩]
    ∧ ([30, 31, 7, 0] : List Nat) ≠ [30, 31] ++ [24, 3] := by
  decide

end persistent

/-! ## Registration -/

namespace persistent

theorem mapErase_eq_filter {α : Type} (m : List (Nat × α)) (key : Nat) (h : uniqueKeys m) :
    mapErase m key = m.filter (fun entry => !(entry.1 == key)) := by
  induction m with
  | nil => rfl
  | cons a rest ih =>
    unfold uniqueKeys at h
    rw [List.map_cons, List.nodup_cons] at h
    by_cases hk : a.1 = key
    · have hrest : ∀ e ∈ rest, (e.1 == key) = false := by
        intro e he
        have hne : e.1 ≠ key := by
          intro heq
          exact h.1 (by rw [hk, ← heq]; exact List.mem_map_of_mem Prod.fst he)
        simpa using hne
      have hfilter : rest.filter (fun entry => !(entry.1 == key)) = rest := by
        rw [List.filter_eq_self]
        intro e he
        simp [hrest e he]
      simp [mapErase, List.eraseP_cons, hk, hfilter]
    · have ih2 := ih h.2
      simp only [mapErase] at ih2
      simp [mapErase, List.eraseP_cons, hk, ih2]

theorem entriesAt_append {α : Type} (m m2 : List (Nat × α)) (key : Nat) :
    entriesAt (m ++ m2) key = entriesAt m key ++ entriesAt m2 key := by
  simp [entriesAt]

theorem entriesAt_eq_nil_of_not_any {α : Type} (m : List (Nat × α)) (key : Nat)
    (h : m.any (fun entry => entry.1 == key) = false) : entriesAt m key = [] := by
  unfold entriesAt
  rw [List.filter_eq_nil_iff]
  intro e he
  rw [List.any_eq_false] at h
  exact h e he

theorem not_any_filter_ne {α : Type} (m : List (Nat × α)) (key : Nat) :
    (m.filter (fun entry => !(entry.1 == key))).any (fun entry => entry.1 == key) = false := by
  rw [List.any_eq_false]
  intro e he
  rw [List.mem_filter] at he
  simpa using he.2

theorem entriesAt_filter_ne {α : Type} (m : List (Nat × α)) (key other : Nat)
    (h : other ≠ key) :
    entriesAt (m.filter (fun entry => !(entry.1 == key))) other = entriesAt m other := by
  unfold entriesAt
  rw [List.filter_filter]
  apply List.filter_congr
  intro e _
  by_cases he : e.1 = other
  · have : e.1 ≠ key := by rw [he]; exact h
    simp [he, h]
  · simp [he]

theorem uniqueKeys_append_new {α : Type} (m : List (Nat × α)) (key : Nat) (value : α)
    (h : uniqueKeys m) (hnew : m.any (fun entry => entry.1 == key) = false) :
    uniqueKeys (m ++ [(key, value)]) := by
  unfold uniqueKeys at h ⊢
  rw [List.map_append, List.nodup_append]
  refine ⟨h, by simp, ?_⟩
  intro a ha hb
  simp only [List.map_cons, List.map_nil, List.mem_singleton] at hb
  rw [List.mem_map] at ha
  obtain ⟨e, he, rfl⟩ := ha
  rw [List.any_eq_false] at hnew
  exact hnew e he (by simpa using hb)

theorem uniqueKeys_filter {α : Type} (m : List (Nat × α)) (p : Nat × α → Bool)
    (h : uniqueKeys m) : uniqueKeys (m.filter p) := by
  unfold uniqueKeys at h ⊢
  exact List.Nodup.sublist (List.Sublist.map _ (List.filter_sublist m)) h

theorem registerPersist_registry {σ : Type} (hash : String → Nat) (obj_name : String)
    (interface_functions : σ) (reg : PersistentRegistry σ) (h : uniqueKeys reg._registry) :
    ∃ kept : List (Nat × σ),
      (registerPersist hash obj_name interface_functions reg)._registry
        = kept ++ [(hash obj_name, interface_functions)]
      ∧ kept.any (fun entry => entry.1 == hash obj_name) = false
      ∧ uniqueKeys kept
      ∧ ∀ key, key ≠ hash obj_name → entriesAt kept key = entriesAt reg._registry key := by
  by_cases hany : reg._registry.any (fun entry => entry.1 == hash obj_name) = true
  · refine ⟨reg._registry.filter (fun entry => !(entry.1 == hash obj_name)), ?_,
      not_any_filter_ne _ _, uniqueKeys_filter _ _ h, fun key hk => entriesAt_filter_ne _ _ _ hk⟩
    simp only [registerPersist, mapInsert, hany, if_true, mapErase_eq_filter _ _ h,
      not_any_filter_ne, Bool.false_eq_true, if_false]
  · have hfalse : reg._registry.any (fun entry => entry.1 == hash obj_name) = false :=
      (Bool.not_eq_true _).mp hany
    refine ⟨reg._registry, ?_, hfalse, h, fun _ _ => rfl⟩
    simp [registerPersist, mapInsert, hfalse]

/-- C9: on a registry whose container holds one element per key,
`registerPersist(name, fns)` leaves exactly one entry under `hash(name)`, namely `fns`,
whether or not the name was registered before; the entries under every other key are
unchanged, the container still holds one element per key, and `unregisterPersist(name)`
leaves the registry unchanged. -/
theorem registerPersist_replaces_entry {σ : Type} (hash : String → Nat) (obj_name : String)
    (interface_functions : σ) (reg : PersistentRegistry σ) (h : uniqueKeys reg._registry) :
    entriesAt (registerPersist hash obj_name interface_functions reg)._registry (hash obj_name)
        = [(hash obj_name, interface_functions)]
    ∧ (∀ key, key ≠ hash obj_name →
        entriesAt (registerPersist hash obj_name interface_functions reg)._registry key
          = entriesAt reg._registry key)
    ∧ uniqueKeys (registerPersist hash obj_name interface_functions reg)._registry
    ∧ (unregisterPersist obj_name reg)._registry = reg._registry
    ∧ (unregisterPersist obj_name reg).last_signed_version = reg.last_signed_version
    ∧ (unregisterPersist obj_name reg).last_signature = reg.last_signature := by
  obtain ⟨kept, hreg, hnone, hunique, hother⟩ :=
    registerPersist_registry hash obj_name interface_functions reg h
  refine ⟨?_, ?_, ?_, rfl, rfl, rfl⟩
  · rw [hreg, entriesAt_append, entriesAt_eq_nil_of_not_any _ _ hnone]
    simp [entriesAt]
  · intro key hkey
    rw [hreg, entriesAt_append, hother key hkey]
    have : entriesAt [(hash obj_name, interface_functions)] key = [] := by
      have hne : hash obj_name ≠ key := fun heq => hkey heq.symm
      simp [entriesAt, hne]
    rw [this, List.append_nil]
  · rw [hreg]
    exact uniqueKeys_append_new _ _ _ hunique hnone

/-- C9, at an instance: registering a third field under the key of the first one of
the example registry replaces that entry and keeps the entry under key 2. -/
theorem registerPersist_replaces_entry_witness :
    uniqueKeys exampleRegistry._registry
    ∧ entriesAt (registerPersist (fun _ => 1) "a" exampleFieldB exampleRegistry)._registry 1
        = [(1, exampleFieldB)]
    ∧ entriesAt (registerPersist (fun _ => 1) "a" exampleFieldB exampleRegistry)._registry 2
        = [(2, exampleFieldB)] :=
  ⟨by unfold uniqueKeys; decide,
    (registerPersist_replaces_entry (fun _ => 1) "a" exampleFieldB exampleRegistry
      (by unfold uniqueKeys; decide)).1,
    by decide⟩

end persistent

/-! ## The subgroup prefix -/

namespace persistent

theorem digitChar_ne_NUL (d : Nat) (h : d < 16) : Nat.digitChar d ≠ NUL := by
  revert d
  decide

theorem digitChar_hex (d : Nat) (h : d < 16) : Nat.digitChar d ∈ "0123456789abcdef".toList := by
  revert d
  decide

theorem toDigitsCore_ne_NUL (fuel n : Nat) (acc : List Char) (hacc : ∀ c ∈ acc, c ≠ NUL) :
    ∀ c ∈ Nat.toDigitsCore 10 fuel n acc, c ≠ NUL := by
  induction fuel generalizing n acc with
  | zero => simpa [Nat.toDigitsCore] using hacc
  | succ fuel ih =>
    have hcons : ∀ c ∈ Nat.digitChar (n % 10) :: acc, c ≠ NUL := by
      intro c hc
      rcases List.mem_cons.mp hc with rfl | hc
      · exact digitChar_ne_NUL _ (by omega)
      · exact hacc c hc
    simp only [Nat.toDigitsCore]
    split_ifs
    · exact hcons
    · exact ih _ _ hcons

theorem toDigits_ne_NUL (n : Nat) : ∀ c ∈ Nat.toDigits 10 n, c ≠ NUL :=
  toDigitsCore_ne_NUL (n + 1) n [] (by simp)

theorem toDigits_length_le (n : Nat) (h : n < 2 ^ 32) : (Nat.toDigits 10 n).length ≤ 10 :=
  Nat.toDigitsCore_length 10 (by norm_num) (n + 1) n 10 (by omega) (by norm_num)

theorem hexString_length (bytes : List Nat) : (hexString bytes).length = 2 * bytes.length := by
  induction bytes with
  | nil => rfl
  | cons b rest ih =>
    simp only [hexString, List.flatMap_cons, List.length_append, List.length_cons,
      List.length_nil] at ih ⊢
    omega

theorem hexString_ne_NUL (bytes : List Nat) (h : ∀ b ∈ bytes, b < 256) :
    ∀ c ∈ hexString bytes, c ≠ NUL := by
  intro c hc
  simp only [hexString, List.mem_flatMap, List.mem_cons, List.mem_singleton,
    List.not_mem_nil, or_false] at hc
  obtain ⟨b, hb, rfl | rfl⟩ := hc
  · exact digitChar_ne_NUL _ (by have := h b hb; omega)
  · exact digitChar_ne_NUL _ (by omega)

theorem hexString_hex (bytes : List Nat) (h : ∀ b ∈ bytes, b < 256) :
    ∀ c ∈ hexString bytes, c ∈ "0123456789abcdef".toList := by
  intro c hc
  simp only [hexString, List.mem_flatMap, List.mem_cons, List.mem_singleton,
    List.not_mem_nil, or_false] at hc
  obtain ⟨b, hb, rfl | rfl⟩ := hc
  · exact digitChar_hex _ (by have := h b hb; omega)
  · exact digitChar_hex _ (by omega)

theorem hexString_take_succ (bytes : List Nat) (k : Nat) (hk : k < bytes.length) :
    hexString (bytes.take (k + 1))
      = hexString (bytes.take k)
        ++ [Nat.digitChar (bytes.getD k 0 / 16), Nat.digitChar (bytes.getD k 0 % 16)] := by
  rw [List.take_succ, List.getD_eq_getElem?_getD, List.getElem?_eq_getElem hk]
  simp only [hexString, List.flatMap_append, Option.toList, List.flatMap_cons, List.flatMap_nil,
    List.append_nil, Option.getD_some]

theorem takeWhile_terminated (l rest : List Char) (h : ∀ c ∈ l, c ≠ NUL) :
    (l ++ NUL :: rest).takeWhile (fun c => c != NUL) = l := by
  induction l with
  | nil => simp [List.takeWhile]
  | cons a r ih =>
    have ha : a ≠ NUL := h a (List.mem_cons_self _ _)
    have hr : ∀ c ∈ r, c ≠ NUL := fun c hc => h c (List.mem_cons_of_mem _ hc)
    have hbne : (a != NUL) = true := by simpa using ha
    rw [List.cons_append, List.takeWhile_cons, hbne, ih hr]
    rfl

/-- The loop that writes the hexadecimal digits: after `k` rounds the array still has
its 96 characters and starts with the digits of the first `k` digest bytes. -/
theorem hexLoop_invariant (digest : List Nat) (buffer0 : List Char) (hlen : digest.length = 32)
    (hbyte : ∀ b ∈ digest, b < 256) (h0 : buffer0.length = 96) (k : Nat) (hk : k ≤ 32) :
    ((List.range k).foldl
        (fun buffer i => writeAt buffer (2 * i) (sprintf_02x (digest.getD i 0))) buffer0).length = 96
    ∧ ((List.range k).foldl
        (fun buffer i => writeAt buffer (2 * i) (sprintf_02x (digest.getD i 0))) buffer0).take (2 * k)
        = hexString (digest.take k) := by
  induction k with
  | zero => simp [h0, hexString]
  | succ k ih =>
    obtain ⟨ihlen, ihtake⟩ := ih (by omega)
    rw [List.range_succ, List.foldl_append]
    simp only [List.foldl_cons, List.foldl_nil]
    generalize (List.range k).foldl
        (fun buffer i => writeAt buffer (2 * i) (sprintf_02x (digest.getD i 0))) buffer0 = buf
      at ihlen ihtake
    have hkd : k < digest.length := by omega
    have hb : digest.getD k 0 < 256 := by
      rw [List.getD_eq_getElem?_getD, List.getElem?_eq_getElem hkd]
      exact hbyte _ (List.getElem_mem _)
    have htl : (buf.take (2 * k)).length = 2 * k := by
      rw [List.length_take]
      omega
    constructor
    · simp only [writeAt, sprintf_02x, List.length_append, List.length_take, List.length_drop,
        List.length_cons, List.length_nil]
      omega
    · rw [hexString_take_succ _ _ hkd, ← ihtake]
      simp only [writeAt, sprintf_02x, List.append_assoc]
      rw [List.take_append_eq_append_take, htl, List.take_of_length_le (by omega)]
      have h2 : 2 * (k + 1) - 2 * k = 2 := by omega
      rw [h2, Nat.mod_eq_of_lt hb]
      simp

/-- C10: when the hasher returns a digest of 32 bytes, `generate_prefix` returns the 64
lowercase hexadecimal digits of the digest, then "-", the decimal `subgroup_index`,
"-" and the decimal `shard_num`, for `uint32_t` numbers.  The result has at most 86
characters, so it fits the array of 96 with its terminator, and it does not depend on
what the array held before. -/
theorem generate_prefix_eq (hash_bytes : List Char → Option (List Nat)) (stack : Nat → Char)
    (subgroup_type_name : List Char) (subgroup_index shard_num : Nat) (digest : List Nat)
    (hhash : hash_bytes subgroup_type_name = some digest) (hlen : digest.length = 32)
    (hbyte : ∀ b ∈ digest, b < 256) (hindex : subgroup_index < 2 ^ 32)
    (hshard : shard_num < 2 ^ 32) :
    generate_prefix hash_bytes stack subgroup_type_name subgroup_index shard_num
        = some (hexString digest ++ '-' :: Nat.toDigits 10 subgroup_index
            ++ '-' :: Nat.toDigits 10 shard_num)
    ∧ (hexString digest).length = 64
    ∧ (∀ c ∈ hexString digest, c ∈ "0123456789abcdef".toList)
    ∧ (hexString digest ++ '-' :: Nat.toDigits 10 subgroup_index
          ++ '-' :: Nat.toDigits 10 shard_num).length ≤ 86
    ∧ (hexString digest ++ '-' :: Nat.toDigits 10 subgroup_index
          ++ '-' :: Nat.toDigits 10 shard_num).length + 1 ≤ 32 * 2 + 32
    ∧ ∀ stack2 : Nat → Char,
        generate_prefix hash_bytes stack2 subgroup_type_name subgroup_index shard_num
          = generate_prefix hash_bytes stack subgroup_type_name subgroup_index shard_num := by
  have hhexlen : (hexString digest).length = 64 := by rw [hexString_length, hlen]
  have h1 := toDigits_length_le subgroup_index hindex
  have h2 := toDigits_length_le shard_num hshard
  have hvalue : ∀ st : Nat → Char,
      generate_prefix hash_bytes st subgroup_type_name subgroup_index shard_num
        = some (hexString digest ++ '-' :: Nat.toDigits 10 subgroup_index
            ++ '-' :: Nat.toDigits 10 shard_num) := by
    intro st
    obtain ⟨hl, ht⟩ := hexLoop_invariant digest ((List.range (32 * 2 + 32)).map st) hlen hbyte
      (by simp) 32 (le_refl _)
    have hfull : digest.take 32 = digest := List.take_of_length_le (by omega)
    rw [hfull] at ht
    have hgen : generate_prefix hash_bytes st subgroup_type_name subgroup_index shard_num
        = some ((writeAt ((List.range 32).foldl
            (fun buffer i => writeAt buffer (2 * i) (sprintf_02x (digest.getD i 0)))
            ((List.range (32 * 2 + 32)).map st)) (2 * 32)
            (sprintf_u_u subgroup_index shard_num)).takeWhile (fun c => c != NUL)) := by
      unfold generate_prefix
      rw [hhash]
    rw [hgen]
    apply congrArg some
    generalize (List.range 32).foldl
        (fun buffer i => writeAt buffer (2 * i) (sprintf_02x (digest.getD i 0)))
        ((List.range (32 * 2 + 32)).map st) = buf at hl ht
    have hw : writeAt buf (2 * 32) (sprintf_u_u subgroup_index shard_num)
        = (hexString digest ++ '-' :: Nat.toDigits 10 subgroup_index
            ++ '-' :: Nat.toDigits 10 shard_num)
          ++ NUL :: buf.drop (2 * 32 + (sprintf_u_u subgroup_index shard_num).length) := by
      simp only [writeAt, sprintf_u_u, ht, List.append_assoc, List.cons_append, List.nil_append,
        List.singleton_append]
    rw [hw]
    apply takeWhile_terminated
    intro c hc
    simp only [List.mem_append, List.mem_cons] at hc
    rcases hc with (hc | rfl | hc) | rfl | hc
    · exact hexString_ne_NUL _ hbyte c hc
    · decide
    · exact toDigits_ne_NUL _ c hc
    · decide
    · exact toDigits_ne_NUL _ c hc
  refine ⟨hvalue stack, hhexlen, hexString_hex digest hbyte, ?_, ?_, ?_⟩
  · simp only [List.length_append, List.length_cons, hhexlen]
    omega
  · simp only [List.length_append, List.length_cons, hhexlen]
    omega
  · intro stack2
    rw [hvalue stack2, hvalue stack]

/-- C10, at an instance: the digest 0, 1, ..., 31 with the largest 32-bit numbers gives
a prefix of 86 characters. -/
theorem generate_prefix_eq_witness :
    (List.range 32).length = 32
    ∧ (4294967295 : Nat) < 2 ^ 32
    ∧ generate_prefix (fun _ => some (List.range 32)) (fun _ => 'x') ['T'] 4294967295 4294967295
        = some ("000102030405060708090a0b0c0d0e0f101112131415161718191a1b1c1d1e1f".toList
            ++ "-4294967295-4294967295".toList)
    ∧ (hexString (List.range 32) ++ '-' :: Nat.toDigits 10 4294967295
          ++ '-' :: Nat.toDigits 10 4294967295).length ≤ 86 :=
  ⟨by decide, by decide, by decide,
    (generate_prefix_eq (fun _ => some (List.range 32)) (fun _ => 'x') ['T'] 4294967295 4294967295
      (List.range 32) rfl (by decide) (by decide) (by decide) (by decide)).2.2.2.1⟩

end persistent

/-! ## Persisting through the handle -/

namespace persistent

open openssl

end persistent

namespace derecho

open persistent openssl

/-- The first pass of `persist`, with the loop test still to be made. -/
theorem persist_succ_eq {σ : Type} (F : PersistentObjectFunctions σ) (version : Int)
    (fuel : Nat) (handle : Replicated σ) (reg : PersistentRegistry σ) (signature : List Nat)
    (hreg : handle.persistent_registry = some reg) :
    Replicated.persist F version (fuel + 1) handle signature
      = match persistPass F handle reg signature with
        | none => .error .sign_overflow
        | some result =>
          if (if getMinimumLatestVersion F reg = -1 then version
              else getMinimumLatestVersion F reg) < version then
            Replicated.persist F version fuel result.1 result.2
          else .ok result := by
  rw [Replicated.persist]
  simp only [hreg]
  cases hs : handle.signer with
  | none => simp only [persistPass, hs]
  | some signer =>
    simp only [persistPass, hs]
    cases sign F (getMinimumLatestVersion F reg) signer signature reg with
    | none => rfl
    | some st => rfl

end derecho

/-! ## The send paths -/

namespace derecho

open persistent openssl

/-- C11: for a valid handle and arguments within the payload limit, `p2p_send` raises the
invalid-node error exactly when `rank_of(dest)` is -1 in the current view; then the
only call made is `get_current_view`, so neither `get_sendbuffer_ptr` nor
`finish_p2p_send` is called; otherwise the buffer is obtained,
`finish_p2p_send(dest, subgroup_id, pending)` is called once with the pending results
of the new invocation, and its results future is returned. -/
theorem p2p_send_invalid_node_iff {σ : Type} (max_p2p_request_payload_size : Nat)
    (handle : Replicated σ) (dest_node size : Nat) (m : RPCManager)
    (hvalid : handle.is_valid = true) (hsize : size ≤ max_p2p_request_payload_size) :
    ((Replicated.p2p_send max_p2p_request_payload_size handle dest_node size m).2
        = .error .invalid_node ↔ rank_of m.curr_view dest_node = -1)
    ∧ (rank_of m.curr_view dest_node = -1 →
        (Replicated.p2p_send max_p2p_request_payload_size handle dest_node size m).1.calls
          = m.calls ++ [.get_current_view])
    ∧ (rank_of m.curr_view dest_node ≠ -1 →
        (Replicated.p2p_send max_p2p_request_payload_size handle dest_node size m).2
            = .ok m.invocations
        ∧ (Replicated.p2p_send max_p2p_request_payload_size handle dest_node size m).1.calls
            = m.calls ++ [.get_current_view, .get_sendbuffer_ptr dest_node,
                .finish_p2p_send dest_node handle.subgroup_id m.invocations]) := by
  by_cases hrank : rank_of m.curr_view dest_node = -1
  · simp [Replicated.p2p_send, hvalid, hrank, RPCManager.record]
  · simp [Replicated.p2p_send, hvalid, hrank, hsize, RPCManager.record, wrappedSend]

/-- C11, on scenario S4: in the view of 10, 20 and 30, a send to node 40 raises the
invalid-node error and a send to node 20 returns the results future. -/
theorem p2p_send_invalid_node_iff_witness :
    exampleHandle.is_valid = true
    ∧ rank_of exampleManager.curr_view 40 = -1
    ∧ (Replicated.p2p_send 100 exampleHandle 40 10 exampleManager).2 = .error .invalid_node
    ∧ (Replicated.p2p_send 100 exampleHandle 40 10 exampleManager).1.calls
        = [ManagerCall.get_current_view]
    ∧ rank_of exampleManager.curr_view 20 = 1
    ∧ (Replicated.p2p_send 100 exampleHandle 20 10 exampleManager).2 = .ok 0
    ∧ (Replicated.p2p_send 100 exampleHandle 20 10 exampleManager).1.calls
        = [ManagerCall.get_current_view, ManagerCall.get_sendbuffer_ptr 20,
            ManagerCall.finish_p2p_send 20 0 0] :=
  ⟨by decide, by decide,
    (p2p_send_invalid_node_iff 100 exampleHandle 40 10 exampleManager (by decide) (by decide)).1.mpr
      (by decide),
    (p2p_send_invalid_node_iff 100 exampleHandle 40 10 exampleManager (by decide) (by decide)).2.1
      (by decide),
    by decide,
    ((p2p_send_invalid_node_iff 100 exampleHandle 20 10 exampleManager (by decide) (by decide)).2.2
      (by decide)).1,
    ((p2p_send_invalid_node_iff 100 exampleHandle 20 10 exampleManager (by decide) (by decide)).2.2
      (by decide)).2⟩

/-- C12, at the failing input: with `max_p2p_request_payload_size = 100` and a maximum
payload size of 200 for the subgroup, arguments of 150 bytes for the member 20 are
rejected by `Replicated::p2p_send` and accepted by `ExternalCaller::p2p_send`, which
compares with `get_max_payload_sizes().at(subgroup_id)`; a size of 100 is accepted by
both. -/
theorem external_caller_applies_other_limit :
    rank_of exampleManager.curr_view 20 ≠ -1
    ∧ (Replicated.p2p_send 100 exampleHandle 20 150 exampleManager).2
        = .error .payload_too_large
    ∧ (ExternalCaller.p2p_send exampleCaller 20 150 exampleManager).2 = .ok 0
    ∧ (Replicated.p2p_send 100 exampleHandle 20 100 exampleManager).2 = .ok 0
    ∧ (ExternalCaller.p2p_send exampleCaller 20 100 exampleManager).2 = .ok 0 :=
  ⟨by decide, rfl, rfl, rfl, rfl⟩

end derecho

/-! ## Moved-from handles and destruction -/

namespace derecho

open persistent openssl

/-- C13, refuted as stated: the raw `send` on the moved-from example handle raises
nothing and calls `view_manager.send`. -/
theorem send_on_moved_from_calls_view_manager :
    exampleHandle.movedFrom.is_valid = false
    ∧ (Replicated.send exampleHandle.movedFrom 64 exampleManager).calls = [ManagerCall.send 0 64] := by
  decide

/-- C13, amended: on a handle that has been moved from, `p2p_send` and `ordered_send`
fail with the empty-reference error and make no call on the view manager or the RPC
manager.  The raw `send` makes no validity check and forwards to `view_manager.send`;
`make_version`, `persist`, `trim` and `truncate` make no validity check either: they go
to the registry pointer, which the move has emptied, and raise no empty-reference
error. -/
theorem moved_from_handle_methods {σ : Type} (F : PersistentObjectFunctions σ)
    (max_p2p_request_payload_size : Nat) (handle : Replicated σ) (dest_node size : Nat)
    (version : Int) (hlc fuel : Nat) (signature : List Nat) (m : RPCManager)
    (hwrapped : handle.wrapped_this = false) (hregistry : handle.persistent_registry = none) :
    Replicated.p2p_send max_p2p_request_payload_size handle dest_node size m
        = (m, .error .empty_reference)
    ∧ Replicated.ordered_send handle size m = (m, .error .empty_reference)
    ∧ Replicated.send handle size m = m.record (.send handle.subgroup_id size)
    ∧ Replicated.make_version F version hlc handle = .error .null_registry
    ∧ Replicated.persist F version (fuel + 1) handle signature = .error .null_registry
    ∧ Replicated.trim F version handle = .error .null_registry
    ∧ Replicated.truncate F version handle = .error .null_registry := by
  refine ⟨?_, ?_, rfl, ?_, ?_, ?_, ?_⟩
  · simp [Replicated.p2p_send, Replicated.is_valid, hwrapped]
  · simp [Replicated.ordered_send, Replicated.is_valid, hwrapped]
  · simp [Replicated.make_version, hregistry]
  · simp [Replicated.persist, hregistry]
  · simp [Replicated.trim, hregistry]
  · simp [Replicated.truncate, hregistry]

/-- C13, amended, at an instance: the example handle after it was moved from. -/
theorem moved_from_handle_methods_witness :
    exampleHandle.movedFrom.wrapped_this = false
    ∧ exampleHandle.movedFrom.persistent_registry = none
    ∧ Replicated.p2p_send 100 exampleHandle.movedFrom 20 10 exampleManager
        = (exampleManager, .error .empty_reference)
    ∧ Replicated.ordered_send exampleHandle.movedFrom 10 exampleManager
        = (exampleManager, .error .empty_reference) :=
  ⟨rfl, rfl,
    (moved_from_handle_methods fieldFunctions 100 exampleHandle.movedFrom 20 10 3 0 0 []
      exampleManager rfl rfl).1,
    (moved_from_handle_methods fieldFunctions 100 exampleHandle.movedFrom 20 10 3 0 0 []
      exampleManager rfl rfl).2.1⟩

theorem count_append_singleton (calls : List ManagerCall) (call : ManagerCall) :
    (calls ++ [call]).count call = calls.count call + 1 := by
  simp

/-- C14: destroying a valid handle calls `destroy_remote_invocable_class(subgroup_id)`
exactly once and destroying a moved-from handle calls nothing; after a move from a
valid handle, destroying the source and the destination, in either order, makes
exactly one deregistration in total. -/
theorem destroy_deregisters_once {σ : Type} (handle : Replicated σ) (m : RPCManager)
    (hvalid : handle.wrapped_this = true) :
    (handle.destroy m).calls
        = m.calls ++ [.destroy_remote_invocable_class handle.subgroup_id]
    ∧ deregistrations (handle.destroy m) handle.subgroup_id
        = deregistrations m handle.subgroup_id + 1
    ∧ handle.movedFrom.destroy m = m
    ∧ ∀ dst src : Replicated σ, handle.move = some (dst, src) →
        src.wrapped_this = false
        ∧ src.destroy m = m
        ∧ (src.destroy (dst.destroy m)).calls
            = m.calls ++ [.destroy_remote_invocable_class handle.subgroup_id]
        ∧ (dst.destroy (src.destroy m)).calls
            = m.calls ++ [.destroy_remote_invocable_class handle.subgroup_id]
        ∧ deregistrations (src.destroy (dst.destroy m)) handle.subgroup_id
            = deregistrations m handle.subgroup_id + 1 := by
  have h1 : (handle.destroy m).calls
      = m.calls ++ [.destroy_remote_invocable_class handle.subgroup_id] := by
    simp [Replicated.destroy, hvalid, RPCManager.record]
  have h2 : handle.movedFrom.destroy m = m := by
    simp [Replicated.destroy, Replicated.movedFrom]
  refine ⟨h1, ?_, h2, ?_⟩
  · unfold deregistrations
    rw [h1, count_append_singleton]
  · intro dst src hmove
    unfold Replicated.move at hmove
    split at hmove
    · exact absurd hmove (by simp)
    · simp only [Option.some.injEq, Prod.mk.injEq] at hmove
      obtain ⟨rfl, rfl⟩ := hmove
      refine ⟨rfl, h2, ?_, ?_, ?_⟩
      · rw [show handle.movedFrom.destroy (handle.destroy m) = handle.destroy m from by
          simp [Replicated.destroy, Replicated.movedFrom]]
        exact h1
      · rw [h2]
        exact h1
      · rw [show handle.movedFrom.destroy (handle.destroy m) = handle.destroy m from by
          simp [Replicated.destroy, Replicated.movedFrom]]
        unfold deregistrations
        rw [h1, count_append_singleton]

/-- C14, at an instance: the example handle is moved and both handles are destroyed. -/
theorem destroy_deregisters_once_witness :
    exampleHandle.wrapped_this = true
    ∧ exampleHandle.move = some (exampleHandle, exampleHandle.movedFrom)
    ∧ (exampleHandle.destroy exampleManager).calls
        = exampleManager.calls ++ [.destroy_remote_invocable_class exampleHandle.subgroup_id]
    ∧ deregistrations (exampleHandle.movedFrom.destroy (exampleHandle.destroy exampleManager))
          exampleHandle.subgroup_id
        = deregistrations exampleManager exampleHandle.subgroup_id + 1 :=
  ⟨rfl, rfl, (destroy_deregisters_once exampleHandle exampleManager rfl).1,
    ((destroy_deregisters_once exampleHandle exampleManager rfl).2.2.2
      exampleHandle exampleHandle.movedFrom rfl).2.2.2.2⟩

end derecho

/-! ## The shard iterator -/

namespace derecho

open persistent openssl

end derecho

/-! ## The view lock in `ordered_send` -/

namespace derecho

open persistent openssl

theorem maxPayloadSizeAt_record (m : RPCManager) (call : ManagerCall) (subgroup_id : Nat) :
    maxPayloadSizeAt (m.record call) subgroup_id = maxPayloadSizeAt m subgroup_id :=
  rfl

/-- The wait with `refusals` refusals left, when the serializer succeeds: the refused
attempts, each with a release and a new acquisition of the lock, then the accepted one. -/
theorem orderedWait_trace (subgroup_id size max_payload_size : Nat) (refusals : Nat)
    (m : RPCManager) (hmax : maxPayloadSizeAt m subgroup_id = .ok max_payload_size)
    (hsize : size ≤ max_payload_size) :
    (orderedWait subgroup_id size refusals m).2 = .ok (m.invocations, m.invocations)
    ∧ (orderedWait subgroup_id size refusals m).1.calls
        = m.calls ++ (List.replicate refusals (refusedAttempt subgroup_id size)).flatten
          ++ [.multicast_send subgroup_id size, .get_max_payload_sizes]
    ∧ (orderedWait subgroup_id size refusals m).1.invocations = m.invocations + 1 := by
  induction refusals generalizing m with
  | zero =>
    have hmax1 : maxPayloadSizeAt
        ((m.record (.multicast_send subgroup_id size)).record .get_max_payload_sizes)
        subgroup_id = .ok max_payload_size := hmax
    simp only [orderedWait, orderedSerializer, hmax1, if_pos hsize, wrappedSend]
    simp [RPCManager.record]
  | succ n ih =>
    have hmax2 : maxPayloadSizeAt
        { ((m.record (.multicast_send subgroup_id size)).record .unlock_shared).record
            .lock_shared with multicast_refusals := n } subgroup_id = .ok max_payload_size := hmax
    obtain ⟨h1, h2, h3⟩ := ih _ hmax2
    simp only [orderedWait]
    refine ⟨h1, ?_, h3⟩
    rw [h2]
    simp [RPCManager.record, List.replicate_succ, refusedAttempt]

/-- C16, refuted as stated: when the multicast group refuses the first attempt, the
shared hold of `view_mutex` is released between the entry into the wait and the call of
`finish_rpc_send`: the wait gives the lock up while the thread is blocked. -/
theorem ordered_send_releases_lock_when_refused :
    exampleManager.multicast_refusals = 1
    ∧ (Replicated.ordered_send exampleHandle 20 exampleManager).2 = .ok 0
    ∧ (Replicated.ordered_send exampleHandle 20 exampleManager).1.calls
        = [.lock_shared, .multicast_send 0 20, .unlock_shared, .lock_shared,
            .multicast_send 0 20, .get_max_payload_sizes, .finish_rpc_send 0 0, .unlock_shared]
    ∧ ManagerCall.unlock_shared
        ∈ (Replicated.ordered_send exampleHandle 20 exampleManager).1.calls.takeWhile
            (fun call => call != .finish_rpc_send 0 0) :=
  ⟨rfl, rfl, by decide, by decide⟩

/-- C16, amended: a successful `ordered_send` of a valid handle takes `view_mutex` in
shared mode before the wait; every attempt the multicast group refuses is followed by
a release of the lock and a new acquisition inside the wait; from the acquisition
before the accepted attempt the lock is held, without a release, through the accepted
send call, its serializer and `finish_rpc_send`, and it is released after that.  When
the first attempt is accepted the lock is held from the entry into the wait on. -/
theorem ordered_send_lock_trace {σ : Type} (handle : Replicated σ) (size max_payload_size : Nat)
    (m : RPCManager) (hvalid : handle.is_valid = true)
    (hmax : maxPayloadSizeAt m handle.subgroup_id = .ok max_payload_size)
    (hsize : size ≤ max_payload_size) :
    (Replicated.ordered_send handle size m).2 = .ok m.invocations
    ∧ (Replicated.ordered_send handle size m).1.calls
        = m.calls ++ [.lock_shared]
          ++ (List.replicate m.multicast_refusals
                (refusedAttempt handle.subgroup_id size)).flatten
          ++ acceptedAttempt handle.subgroup_id size m.invocations
    ∧ (m.multicast_refusals = 0 →
        (Replicated.ordered_send handle size m).1.calls
          = m.calls ++ [.lock_shared, .multicast_send handle.subgroup_id size,
              .get_max_payload_sizes, .finish_rpc_send handle.subgroup_id m.invocations,
              .unlock_shared]) := by
  obtain ⟨h1, h2, _⟩ := orderedWait_trace handle.subgroup_id size max_payload_size
    m.multicast_refusals (m.record .lock_shared) hmax hsize
  have hinv : (m.record .lock_shared).invocations = m.invocations := rfl
  have hcalls : (m.record .lock_shared).calls = m.calls ++ [.lock_shared] := rfl
  rw [hinv] at h1
  rw [hcalls] at h2
  generalize hsent : orderedWait handle.subgroup_id size m.multicast_refusals
    (m.record .lock_shared) = sent at h1 h2
  obtain ⟨m1, r⟩ := sent
  simp only at h1 h2
  subst h1
  have hsend : Replicated.ordered_send handle size m
      = ((m1.record (.finish_rpc_send handle.subgroup_id m.invocations)).record .unlock_shared,
          .ok m.invocations) := by
    simp only [Replicated.ordered_send, hvalid, if_true, hsent]
  have htrace : (Replicated.ordered_send handle size m).1.calls
      = m.calls ++ [.lock_shared]
        ++ (List.replicate m.multicast_refusals
              (refusedAttempt handle.subgroup_id size)).flatten
        ++ acceptedAttempt handle.subgroup_id size m.invocations := by
    rw [hsend]
    simp only [RPCManager.record, h2, acceptedAttempt, List.append_assoc, List.cons_append,
      List.nil_append]
  refine ⟨by rw [hsend], htrace, ?_⟩
  intro hzero
  rw [htrace, hzero]
  simp [acceptedAttempt]

/-- C16, amended, at an instance: with one refusal the lock is released and taken again
once, then held through the accepted send and `finish_rpc_send`; without a refusal it
is held from the entry into the wait. -/
theorem ordered_send_lock_trace_witness :
    exampleHandle.is_valid = true
    ∧ maxPayloadSizeAt exampleManager exampleHandle.subgroup_id = .ok 200
    ∧ (Replicated.ordered_send exampleHandle 20 exampleManager).1.calls
        = exampleManager.calls ++ [.lock_shared]
          ++ (List.replicate exampleManager.multicast_refusals
                (refusedAttempt exampleHandle.subgroup_id 20)).flatten
          ++ acceptedAttempt exampleHandle.subgroup_id 20 exampleManager.invocations
    ∧ (Replicated.ordered_send exampleHandle 20 shardManager).1.calls
        = shardManager.calls ++ [.lock_shared, .multicast_send exampleHandle.subgroup_id 20,
            .get_max_payload_sizes,
            .finish_rpc_send exampleHandle.subgroup_id shardManager.invocations,
            .unlock_shared] :=
  ⟨rfl, rfl,
    (ordered_send_lock_trace exampleHandle 20 200 exampleManager rfl rfl (by decide)).2.1,
    (ordered_send_lock_trace exampleHandle 20 200 shardManager rfl rfl (by decide)).2.2 rfl⟩

end derecho

/-! ## Termination of `persist` -/

namespace persistent

open openssl

theorem signVersion_latest_versions {σ : Type} (F : PersistentObjectFunctions σ)
    (hsig : ∀ v sg s, F.get_latest_version (F.add_signature v sg s) = F.get_latest_version s)
    (version : Int) (st : SignState σ) :
    (signVersion F version st).registry._registry.map (fun e => F.get_latest_version e.2)
      = st.registry._registry.map (fun e => F.get_latest_version e.2) := by
  simp only [signVersion, List.map_map]
  apply List.map_congr_left
  intro e _
  exact hsig _ _ _

theorem signRun_latest_versions {σ : Type} (F : PersistentObjectFunctions σ)
    (hsig : ∀ v sg s, F.get_latest_version (F.add_signature v sg s) = F.get_latest_version s)
    (latest_version : Int) (signer : Signer) (signature_buffer : List Nat)
    (reg : PersistentRegistry σ) :
    (signRun F latest_version signer signature_buffer reg).registry._registry.map
        (fun e => F.get_latest_version e.2)
      = reg._registry.map (fun e => F.get_latest_version e.2) := by
  rw [signRun_eq_foldl]
  generalize versionRange (getMinimumLatestPersistedVersion F reg) latest_version = vs
  have key : ∀ (st : SignState σ),
      (vs.foldl (fun s v => signVersion F v s) st).registry._registry.map
          (fun e => F.get_latest_version e.2)
        = st.registry._registry.map (fun e => F.get_latest_version e.2) := by
    induction vs with
    | nil => intro st; rfl
    | cons v rest ih =>
      intro st
      rw [List.foldl_cons, ih, signVersion_latest_versions F hsig]
  exact key _

/-- Callbacks that leave the latest version of a field as it is leave the minimum latest
version of the registry as it is, through the registry's `persist` and through `sign`. -/
theorem minimum_latest_version_kept {σ : Type} (F : PersistentObjectFunctions σ)
    (hkeep : ∀ x s, F.get_latest_version (F.persist x s) = F.get_latest_version s)
    (hsig : ∀ v sg s, F.get_latest_version (F.add_signature v sg s) = F.get_latest_version s) :
    (∀ (x : Int) (reg : PersistentRegistry σ),
      getMinimumLatestVersion F (persist F x reg) = getMinimumLatestVersion F reg)
    ∧ ∀ (latest_version : Int) (signer : Signer) (signature_buffer : List Nat)
        (reg : PersistentRegistry σ) (st : SignState σ),
        sign F latest_version signer signature_buffer reg = some st →
        getMinimumLatestVersion F st.registry = getMinimumLatestVersion F reg := by
  constructor
  · intro x reg
    unfold getMinimumLatestVersion
    apply minimumScan_eq_of_map_eq
    simp only [persist, List.map_map]
    apply List.map_congr_left
    intro e _
    exact hkeep _ _
  · intro latest_version signer signature_buffer reg st hst
    obtain ⟨rfl, _⟩ := eq_signRun_of_sign F latest_version signer signature_buffer reg st hst
    exact minimumScan_eq_of_map_eq _ _ _ _
      (signRun_latest_versions F hsig latest_version signer signature_buffer reg) _ _

end persistent

namespace derecho

open persistent openssl

/-- While the minimum latest version stays below the requested version, is not raised
and does not become -1, the loop of `persist` is still running after any number of
passes. -/
theorem persist_never_exits {σ : Type} (F : PersistentObjectFunctions σ) (version : Int)
    (hversion : version ≤ INT64_MAX)
    (hpersist : ∀ (x : Int) (reg : PersistentRegistry σ), getMinimumLatestVersion F reg ≠ -1 →
      getMinimumLatestVersion F (persistent.persist F x reg) ≤ getMinimumLatestVersion F reg
      ∧ getMinimumLatestVersion F (persistent.persist F x reg) ≠ -1)
    (hsign : ∀ (latest_version : Int) (signer : Signer) (signature_buffer : List Nat)
      (reg : PersistentRegistry σ) (st : SignState σ),
      sign F latest_version signer signature_buffer reg = some st →
      getMinimumLatestVersion F reg ≠ -1 →
      getMinimumLatestVersion F st.registry ≤ getMinimumLatestVersion F reg
      ∧ getMinimumLatestVersion F st.registry ≠ -1)
    (fuel : Nat) (handle : Replicated σ) (reg : PersistentRegistry σ) (signature : List Nat)
    (hreg : handle.persistent_registry = some reg)
    (hne : getMinimumLatestVersion F reg ≠ -1)
    (hlt : getMinimumLatestVersion F reg < version) :
    Replicated.persist F version fuel handle signature = .error .still_running := by
  induction fuel generalizing handle reg signature with
  | zero => rfl
  | succ fuel ih =>
    rw [persist_succ_eq F version fuel handle reg signature hreg]
    unfold persistPass
    cases hs : handle.signer with
    | none =>
      simp only
      rw [if_neg hne, if_pos hlt]
      obtain ⟨h1, h2⟩ := hpersist (getMinimumLatestVersion F reg) reg hne
      exact ih _ _ _ rfl h2 (by omega)
    | some signer =>
      simp only
      have hsigned := sign_eq_some F (getMinimumLatestVersion F reg) signer signature reg
        (Or.inl (by omega))
      rw [hsigned]
      simp only [Option.map_some']
      rw [if_neg hne, if_pos hlt]
      obtain ⟨h1, h2⟩ := hsign _ signer signature reg _ hsigned hne
      obtain ⟨h3, h4⟩ := hpersist (getMinimumLatestVersion F reg) _ h2
      exact ih _ _ _ rfl h4 (by omega)

/-- C17, refuted as stated: with a `persist` callback that lowers the latest version of
its field to -1, which does not raise the minimum 3, `persist(5, signature)` is not
over after one pass but exits in the second; and with a signer and the largest
`int64_t` as minimum latest version, `persist` of that version does not end after one
pass, because `sign` does not return. -/
theorem persist_exits_after_lowering_and_hangs_at_maximum :
    getMinimumLatestVersion loweringFunctions exampleRegistry = 3
    ∧ Replicated.persist loweringFunctions 5 1 unsignedHandle [] = .error .still_running
    ∧ minimumLatestPersistedAfterPersist loweringFunctions 5 2 unsignedHandle [] = some 3
    ∧ maxHandle.persistent_registry.map (getMinimumLatestVersion fieldFunctions)
        = some INT64_MAX
    ∧ Replicated.persist fieldFunctions INT64_MAX 1 maxHandle [0, 0] = .error .sign_overflow :=
  ⟨by decide, rfl, by decide, by decide, rfl⟩

/-- C17, amended: when the registry's `getMinimumLatestVersion()` is -1 or at least
`version` and, with a signer, below the largest `int64_t`, `persist(version, signature)`
ends after exactly one pass of its loop, whatever bound on the passes is allowed, and
that pass is `sign` (only with a signer) followed by the registry's `persist`, both
called with `getMinimumLatestVersion()`.  When the minimum latest version `m` has
`m ≠ -1` and `m < version`, and the field operations of `sign` and of the registry's
`persist` neither raise the minimum latest version nor make it -1, the loop is still
running after any number of passes. -/
theorem persist_one_pass_or_never {σ : Type} (F : PersistentObjectFunctions σ)
    (version : Int) (handle : Replicated σ) (reg : PersistentRegistry σ)
    (signature : List Nat) (hreg : handle.persistent_registry = some reg)
    (hversion : version ≤ INT64_MAX) :
    ((getMinimumLatestVersion F reg = -1 ∨ version ≤ getMinimumLatestVersion F reg) →
      (handle.signer = none ∨ getMinimumLatestVersion F reg < INT64_MAX) →
      ∃ result, persistPass F handle reg signature = some result
        ∧ ∀ fuel : Nat, Replicated.persist F version (fuel + 1) handle signature = .ok result)
    ∧ ((∀ (x : Int) (reg2 : PersistentRegistry σ), getMinimumLatestVersion F reg2 ≠ -1 →
          getMinimumLatestVersion F (persistent.persist F x reg2) ≤ getMinimumLatestVersion F reg2
          ∧ getMinimumLatestVersion F (persistent.persist F x reg2) ≠ -1) →
        (∀ (latest_version : Int) (signer : Signer) (signature_buffer : List Nat)
          (reg2 : PersistentRegistry σ) (st : SignState σ),
          sign F latest_version signer signature_buffer reg2 = some st →
          getMinimumLatestVersion F reg2 ≠ -1 →
          getMinimumLatestVersion F st.registry ≤ getMinimumLatestVersion F reg2
          ∧ getMinimumLatestVersion F st.registry ≠ -1) →
        getMinimumLatestVersion F reg ≠ -1 → getMinimumLatestVersion F reg < version →
        ∀ fuel : Nat, Replicated.persist F version fuel handle signature
          = .error .still_running) := by
  constructor
  · intro h hreturns
    have hpass : ∃ result, persistPass F handle reg signature = some result := by
      unfold persistPass
      cases hs : handle.signer with
      | none => exact ⟨_, rfl⟩
      | some signer =>
        have hlt : getMinimumLatestVersion F reg < INT64_MAX := by
          rcases hreturns with h1 | h1
          · rw [hs] at h1
            exact absurd h1 (by simp)
          · exact h1
        simp only
        rw [sign_eq_some F _ signer signature reg (Or.inl hlt)]
        exact ⟨_, rfl⟩
    obtain ⟨result, hresult⟩ := hpass
    refine ⟨result, hresult, ?_⟩
    intro fuel
    rw [persist_succ_eq F version fuel handle reg signature hreg, hresult]
    simp only
    rcases h with h | h
    · rw [if_pos h, if_neg (lt_irrefl _)]
    · by_cases hm : getMinimumLatestVersion F reg = -1
      · rw [if_pos hm, if_neg (lt_irrefl _)]
      · rw [if_neg hm, if_neg (by omega)]
  · intro hpersist hsign hne hlt fuel
    exact persist_never_exits F version hversion hpersist hsign fuel handle reg signature hreg
      hne hlt

/-- C17, amended, at an instance: the fields of the example handle have made version 3, so
`persist(3, signature)` ends after one pass and `persist(4, signature)` is still
running after 50 passes; the handle without fields ends after one pass. -/
theorem persist_one_pass_or_never_witness :
    getMinimumLatestVersion fieldFunctions exampleRegistry = 3
    ∧ (∃ result, persistPass fieldFunctions exampleHandle exampleRegistry [0, 0] = some result
        ∧ ∀ fuel : Nat, Replicated.persist fieldFunctions 3 (fuel + 1) exampleHandle [0, 0]
            = .ok result)
    ∧ Replicated.persist fieldFunctions 3 1 exampleHandle [0, 0]
        = .ok (exampleHandlePersisted.1, exampleHandlePersisted.2)
    ∧ Replicated.persist fieldFunctions 4 50 exampleHandle [0, 0] = .error .still_running
    ∧ getMinimumLatestVersion fieldFunctions emptyRegistry = -1
    ∧ (∃ result, persistPass fieldFunctions emptyHandle emptyRegistry [] = some result
        ∧ ∀ fuel : Nat, Replicated.persist fieldFunctions 9 (fuel + 1) emptyHandle []
            = .ok result) :=
  ⟨by decide,
    (persist_one_pass_or_never fieldFunctions 3 exampleHandle exampleRegistry [0, 0] rfl
      (by decide)).1 (Or.inr (by decide)) (Or.inr (by decide)),
    rfl,
    (persist_one_pass_or_never fieldFunctions 4 exampleHandle exampleRegistry [0, 0] rfl
      (by decide)).2
      (fun x reg2 hne => by
        rw [(minimum_latest_version_kept fieldFunctions (fun _ _ => rfl) (fun _ _ _ => rfl)).1]
        exact ⟨le_refl _, hne⟩)
      (fun latest_version signer signature_buffer reg2 st hst hne => by
        rw [(minimum_latest_version_kept fieldFunctions (fun _ _ => rfl) (fun _ _ _ => rfl)).2
          latest_version signer signature_buffer reg2 st hst]
        exact ⟨le_refl _, hne⟩)
      (by decide) (by decide) 50,
    by decide,
    (persist_one_pass_or_never fieldFunctions 9 emptyHandle emptyRegistry [] rfl
      (by decide)).1 (Or.inl (by decide)) (Or.inl rfl)⟩

end derecho
